import Mathlib

/-!
Verification of the w4096 toolchain (`basm-preprocessor` and `basm` crates).

This file gives a shallow embedding of the parts of the two crates the
checked claims talk about: the `CodeMap` data structure shared by both
crates, the preprocessor lexer (`basm-preprocessor/src/lexer.rs`) and
parser (`basm-preprocessor/src/parser.rs`), and the assembler lexer
(`basm/src/lexer.rs`) and parser (`basm/src/parser.rs`).

Modelling conventions:
  * Rust `String`/`&str` data is a `List Char`; byte positions are modelled
    faithfully via `Char.utf8Size`, because the preprocessor lexer mixes
    byte offsets (`self.span`) with char offsets (`chars().nth`).
  * a Rust `panic!` (including out-of-bounds slicing) is modelled as the
    `LexErr.panicked` outcome, distinct from an ordinary `Err` result;
  * loops that are not structurally terminating take a fuel parameter;
    running out of fuel is the distinct outcome `noFuel` (a Rust run that
    diverges never returns `Ok`, and no theorem counts `noFuel` as `Ok`);
  * file I/O (`fileio::read_file`) is modelled as a lookup in an explicit
    association list `fs : List (String × String)` from filename to
    contents, erroring when the file is absent, mirroring `read_file`'s
    error on `File::open` failure;
  * `println!` warnings are collected in a `warnings` list in the parser
    state.
-/

namespace W4096

/-- Rust `char::is_whitespace` (Unicode `White_Space`).  The full (finite)
Unicode white-space set, so this matches Rust on every character. -/
def rustIsWhitespace (c : Char) : Bool :=
  c.toNat = 0x9 || c.toNat = 0xA || c.toNat = 0xB || c.toNat = 0xC ||
  c.toNat = 0xD || c.toNat = 0x20 || c.toNat = 0x85 || c.toNat = 0xA0 ||
  c.toNat = 0x1680 || (0x2000 ≤ c.toNat && c.toNat ≤ 0x200A) ||
  c.toNat = 0x2028 || c.toNat = 0x2029 || c.toNat = 0x202F ||
  c.toNat = 0x205F || c.toNat = 0x3000

/-- Rust `char::is_alphanumeric`.  Exact on the ASCII range (`0-9a-zA-Z`),
which is the only range the theorems below exercise it on (non-ASCII
Unicode alphanumerics are approximated as `false`; no claim depends on a
non-ASCII character flowing through `is_alphanumeric`). -/
def rustIsAlphanumeric (c : Char) : Bool :=
  (c.toNat ≥ 0x30 && c.toNat ≤ 0x39) ||
  (c.toNat ≥ 0x41 && c.toNat ≤ 0x5A) ||
  (c.toNat ≥ 0x61 && c.toNat ≤ 0x7A)

/-- Total number of UTF-8 bytes of a char list (Rust `str::len`). -/
def byteLen (l : List Char) : Nat := (l.map Char.utf8Size).sum

/-- `&s[n..]` on a Rust string: drop `n` bytes.  `none` models the panic
when `n` is not a char boundary or exceeds the length. -/
def dropBytes : List Char → Nat → Option (List Char)
  | l, 0 => some l
  | [], _ + 1 => none
  | c :: cs, n + 1 =>
    if c.utf8Size ≤ n + 1 then dropBytes cs (n + 1 - c.utf8Size) else none

/-- `&s[..n]` on a Rust string: take `n` bytes.  `none` models the panic
when `n` is not a char boundary or exceeds the length. -/
def takeBytes : List Char → Nat → Option (List Char)
  | _, 0 => some []
  | [], _ + 1 => none
  | c :: cs, n + 1 =>
    if c.utf8Size ≤ n + 1 then (takeBytes cs (n + 1 - c.utf8Size)).map (c :: ·)
    else none

/-- `take_while` (identical in both crates'
`lexer.rs`): longest prefix whose chars satisfy `pred`, together with its
byte length; `Err` when the prefix is empty. -/
def take_while (pred : Char → Bool) : List Char → List Char × Nat
  | [] => ([], 0)
  | c :: cs =>
    if pred c then
      let r := take_while pred cs
      (c :: r.1, c.utf8Size + r.2)
    else ([], 0)

/-- The `Result` wrapper of `take_while`: `Err("No matches")` on an empty
match, otherwise the matched slice and its byte length. -/
def takeWhileRes (pred : Char → Bool) (data : List Char) :
    Except String (List Char × Nat) :=
  let r := take_while pred data
  if r.2 = 0 then .error "No matches" else .ok r

/-- Lexer outcomes.  `err` is an ordinary `Err(String)` result; `panicked`
models a Rust `panic!`/slice-panic (a process abort, not a `Result`);
`noFuel` marks a run that exceeded the fuel (a diverging Rust run). -/
inductive LexErr where
  | err (msg : String)
  | panicked (msg : String)
  | noFuel
  deriving DecidableEq, Repr

/-! ## CodeMap (`basm-preprocessor/src/codemap.rs` and `basm/src/codemap.rs`)

Both crates declare the same two structures; the preprocessor implements
`new`/`add_entry`/`push`, the assembler implements `get_from`. -/

structure LineEntry where
  filename_index : Nat
  line : Nat
  deriving DecidableEq, Repr

structure CodeMap where
  filenames : List String
  line_entries : List LineEntry
  deriving DecidableEq, Repr

namespace CodeMap

/-- `CodeMap::new`. -/
def new : CodeMap := { filenames := [], line_entries := [] }

/-- `CodeMap::add_entry`. -/
def add_entry (m : CodeMap) (filename_index line : Nat) : CodeMap :=
  { m with line_entries := m.line_entries ++ [⟨filename_index, line⟩] }

/-- `CodeMap::push` (preprocessor crate): append `other`'s entries with
their `filename_index` shifted by the current `filenames.len()`, then
extend `filenames`. -/
def push (m other : CodeMap) : CodeMap :=
  let offset := m.filenames.length
  { filenames := m.filenames ++ other.filenames
    line_entries := m.line_entries ++
      other.line_entries.map (fun e => ⟨e.filename_index + offset, e.line⟩) }

/-- `CodeMap::get_from` (assembler crate): resolve a 1-based output line
to `(filename, source_line)`.  The Rust code indexes the vectors directly
(panicking when out of bounds); `none` models those panics. -/
def get_from (m : CodeMap) (line : Nat) : Option (String × Nat) := do
  let entry ← m.line_entries[line - 1]?
  let filename ← m.filenames[entry.filename_index]?
  pure (filename, entry.line)

/-- Well-formedness: every line entry's `filename_index` is a valid index
into `filenames`. -/
def WellFormed (m : CodeMap) : Prop :=
  ∀ e ∈ m.line_entries, e.filename_index < m.filenames.length

instance (m : CodeMap) : Decidable m.WellFormed := by
  unfold WellFormed; infer_instance

end CodeMap

/-! ## Preprocessor lexer (`basm-preprocessor/src/lexer.rs`) -/

namespace PP

/-- `TokenKind` of the preprocessor crate. -/
inductive TokenKind where
  | Code (s : String)
  | Newline
  | Whitespace
  | NoneK
  | Include
  | Define
  | Undef
  | Integer (n : Int)
  | Str (s : String)
  deriving DecidableEq, Repr

structure Token where
  kind : TokenKind
  span : Nat
  deriving DecidableEq, Repr

/-- `skip_white_space`: byte length of the leading whitespace-but-not-newline
run (0 when there is none). -/
def skip_white_space (data : List Char) : Nat :=
  match takeWhileRes (fun c => rustIsWhitespace c && c ≠ '\n') data with
  | .ok (_, bytes_read) => bytes_read
  | .error _ => 0

/-- `skip_comment`: from a `;` to the next newline.  The `panic!` branch is
modelled as `LexErr.panicked`. -/
def skip_comment (data : List Char) : Except LexErr Nat :=
  if data.head? = some ';' then
    match takeWhileRes (fun c => c ≠ '\n') data with
    | .ok (_, bytes_read) => .ok bytes_read
    | .error _ => .error (.panicked "Unexpected EOF in skip_comment")
  else .ok 0

/-- `skip_code`: everything up to the next newline or `;`.  The `panic!`
branch (empty match) is modelled as `LexErr.panicked`. -/
def skip_code (data : List Char) : Except LexErr Nat :=
  match takeWhileRes (fun c => c ≠ '\n' && c ≠ ';') data with
  | .ok (_, bytes_read) => .ok bytes_read
  | .error _ => .error (.panicked "Unexpected EOF in skip_line")

/-- Digit value accepted by Rust `from_str_radix` (0-9, a-z, A-Z below the
radix). -/
def digitVal (radix : Nat) (c : Char) : Option Nat :=
  let v :=
    if '0' ≤ c ∧ c ≤ '9' then some (c.toNat - '0'.toNat)
    else if 'a' ≤ c ∧ c ≤ 'z' then some (c.toNat - 'a'.toNat + 10)
    else if 'A' ≤ c ∧ c ≤ 'Z' then some (c.toNat - 'A'.toNat + 10)
    else none
  match v with
  | some n => if n < radix then some n else none
  | none => none

/-- Digit run of `from_str_radix`: `none` on an empty run or an invalid
digit. -/
def parseDigits (radix : Nat) : List Char → Option Nat
  | [] => none
  | cs => cs.foldlM (fun acc c => (digitVal radix c).map (acc * radix + ·)) 0

/-- The optional leading `+` accepted by Rust integer parsing. -/
def stripPlus : List Char → List Char
  | '+' :: rest => rest
  | rest => rest

/-- Rust `from_str_radix` for an unsigned type with maximum value `max`:
an optional leading `+`, then a non-empty digit run, overflow-checked.
(A leading `-` cannot reach this code because the callers only pass
alphanumeric text; it is treated as an invalid digit.) -/
def from_str_radix (max radix : Nat) (cs : List Char) : Option Nat :=
  match parseDigits radix (stripPlus cs) with
  | some n => if n ≤ max then some n else none
  | none => none

/-- `tokenize_number` (preprocessor crate: `i64` result, prefixes `0x` and
`0b` only).  `read.len() > 2` is the byte length; `&read[0..2]` is a
2-byte slice whose boundary panic is modelled via `takeBytes`. -/
def tokenize_number (data : List Char) : Except LexErr Token := do
  let (read, bytes_read) ← (takeWhileRes rustIsAlphanumeric data).mapError .err
  let result_num : Except LexErr (Option Nat) :=
    if byteLen read > 2 then
      match takeBytes read 2 with
      | none => .error (.panicked "byte index 2 is not a char boundary")
      | some pre =>
        if pre = ['0', 'x'] then .ok (from_str_radix (2 ^ 63 - 1) 16 (read.drop 2))
        else if pre = ['0', 'b'] then .ok (from_str_radix (2 ^ 63 - 1) 2 (read.drop 2))
        else .ok (from_str_radix (2 ^ 63 - 1) 10 read)
    else .ok (from_str_radix (2 ^ 63 - 1) 10 read)
  match ← result_num with
  | some n => .ok ⟨.Integer n, bytes_read⟩
  | none => .error (.err ("Could not parse number: " ++ String.mk read))

/-- The loop body of `tokenize_string_literal`: scans after the opening
quote, translating escapes, until the closing quote.  Returns the content
and `bytes_read` (the mutable accumulators of the Rust loop, rendered as
the recursion's result). -/
def string_lit_loop : List Char → Except LexErr (List Char × Nat)
  | [] => .error (.err "Reached EOF before finding a quote")
  | '"' :: _ => .ok ([], 0)
  | '\\' :: rest =>
    match rest with
    | 'n' :: r2 => (string_lit_loop r2).map (fun (s, n) => ('\n' :: s, n + 2))
    | '0' :: r2 =>
      (string_lit_loop r2).map (fun (s, n) => (Char.ofNat 0 :: s, n + 2))
    | '\\' :: r2 => (string_lit_loop r2).map (fun (s, n) => ('\\' :: s, n + 2))
    | '"' :: r2 => (string_lit_loop r2).map (fun (s, n) => ('"' :: s, n + 2))
    | c :: _ =>
      .error (.err (String.mk [c] ++ " is not a valid escape character"))
    | [] => .error (.err "Reached EOF before finding a quote")
  | c :: rest =>
    (string_lit_loop rest).map (fun (s, n) => (c :: s, n + c.utf8Size))

/-- `tokenize_string_literal`: skip the first char (assumed to be the
opening `"`), run the scan loop, reject an empty literal, and report a
span of `bytes_read + 2`. -/
def tokenize_string_literal (data : List Char) : Except LexErr Token := do
  let (content, bytes_read) ← string_lit_loop (data.drop 1)
  if bytes_read = 0 then .error (.err "No matches")
  else .ok ⟨.Str (String.mk content), bytes_read + 2⟩

/-- ASCII `to_lowercase` of a char list (Rust lowercases full Unicode; the
directive/keyword matchers below only ever compare against ASCII keywords,
and non-ASCII text simply fails those comparisons in both models). -/
def lowerAscii (cs : List Char) : List Char := cs.map Char.toLower

/-- `tokenize_directive` (preprocessor crate). -/
def tokenize_directive (data : List Char) : Except LexErr Token := do
  let (read, bytes_read) ←
    (takeWhileRes (fun c => c = '_' || c = '#' || rustIsAlphanumeric c) data).mapError .err
  let kind : Except LexErr TokenKind :=
    if lowerAscii read = "#include".data then .ok .Include
    else if lowerAscii read = "#define".data then .ok .Define
    else if lowerAscii read = "#undef".data then .ok .Undef
    else .error (.err ("Unknown preprocessor directive " ++ String.mk read))
  .ok ⟨← kind, bytes_read⟩

/-- The lexer's mutable state (`Lexer` struct): `data`, the byte span
(`pos` is `span.0`; `span.1` stays `byteLen data`), the current line, the
`ReadKind` state (`readParams = true` is `ReadParameters`), and the
accumulated `tokens` and `map` line entries. -/
structure LexState where
  data : List Char
  pos : Nat
  line : Nat
  readParams : Bool
  tokens : List Token
  entries : List LineEntry
  deriving DecidableEq, Repr

/-- `Lexer::new`. -/
def LexState.new (data : List Char) : LexState :=
  { data := data, pos := 0, line := 1, readParams := false
    tokens := [], entries := [] }

/-- `Lexer::tokenize_one_token` (preprocessor crate), applied to the
selected slice; returns the token and the new `ReadKind` state. -/
def tokenize_one_token (sel : List Char) (readParams : Bool) :
    Except LexErr (Token × Bool) := do
  match sel.head? with
  | none => .error (.err "Unexpected EOF")
  | some next =>
    if next = '#' then
      let t ← tokenize_directive sel
      .ok (t, true)
    else if next = '"' then
      let t ← tokenize_string_literal sel
      .ok (t, readParams)
    else if '0' ≤ next ∧ next ≤ '9' then
      let t ← tokenize_number sel
      .ok (t, readParams)
    else do
      let span ← skip_code sel
      match takeBytes sel span with
      | none => .error (.panicked "byte index is not a char boundary")
      | some code => .ok (⟨.Code (String.mk code), span⟩, false)

/-- One iteration of the `while` loop in `Lexer::tokenize`: dispatch on
`self.data.chars().nth(self.span.0)` — a *char* index applied to a *byte*
offset, faithfully modelled — then consume the span and record the token
and line entry.  Panics (`unwrap_or_else` on a missing char, byte slicing
off a char boundary) are `LexErr.panicked`. -/
def lexStep (st : LexState) : Except LexErr LexState := do
  match st.data.get? st.pos with
  | none => .error (.panicked "Lexer object span broke. Did you forget a quote?")
  | some c =>
    let selRes : Except LexErr (List Char) :=
      match dropBytes st.data st.pos with
      | some sel => .ok sel
      | none => .error (.panicked "byte index is not a char boundary")
    let (kind, span, line, readParams) ←
      if rustIsWhitespace c ∧ c ≠ '\n' then do
        let sel ← selRes
        if st.readParams then
          pure (TokenKind.NoneK, skip_white_space sel, st.line, st.readParams)
        else
          pure (TokenKind.Whitespace, skip_white_space sel, st.line, st.readParams)
      else if c = '\n' then
        pure (TokenKind.Newline, 1, st.line + 1, st.readParams)
      else if c = ';' then do
        let sel ← selRes
        let n ← skip_comment sel
        pure (TokenKind.NoneK, n, st.line, st.readParams)
      else do
        let sel ← selRes
        let (tok, rp) ← (tokenize_one_token sel st.readParams).mapError
          (fun e => match e with
            | .err m => .err ("Error on line: " ++ m)
            | e => e)
        pure (tok.kind, tok.span, st.line, rp)
    let st := { st with pos := st.pos + span, line := line, readParams := readParams }
    match kind with
    | .NoneK => .ok st
    | _ =>
      .ok { st with
            entries := st.entries ++ [⟨0, st.line⟩]
            tokens := st.tokens ++ [⟨kind, span⟩] }

/-- The `while self.span.0 < self.span.1` loop of `Lexer::tokenize`. -/
def lexLoop : Nat → LexState → Except LexErr LexState
  | 0, _ => .error .noFuel
  | fuel + 1, st =>
    if st.pos < byteLen st.data then do
      lexLoop fuel (← lexStep st)
    else .ok st

/-- `Lexer::tokenize` run from a fresh lexer on `data`. -/
def tokenize (fuel : Nat) (data : List Char) : Except LexErr LexState :=
  lexLoop fuel (LexState.new data)

/-! ## Preprocessor parser (`basm-preprocessor/src/parser.rs`)

The parser state mirrors the `Parser` struct.  `deflist` is modelled as an
association list with `HashMap` semantics (lookup finds the unique entry
for a key; insert overwrites; remove deletes).  The filesystem `fs` is an
explicit association list from filename to file contents; `read_file`
errors when the file is absent.  `println!` warnings are accumulated in
`warnings`. -/

structure ParseState where
  tokens : List Token
  output : String
  map : CodeMap
  deflist : List (String × List Token)
  index : Nat
  line : Nat
  filename : String
  warnings : List String
  deriving DecidableEq, Repr

/-- A filesystem: filename to contents. -/
def Fs := List (String × String)

/-- `fileio::read_file`, modelled over `fs`. -/
def read_file (fs : Fs) (filename : String) : Except LexErr String :=
  match fs.find? (fun p => p.1 = filename) with
  | some p => .ok p.2
  | none => .error (.err ("File " ++ filename ++ " could not be opened."))

/-- `HashMap::get`-style lookup in the `deflist`. -/
def lookupD (d : List (String × List Token)) (k : String) : Option (List Token) :=
  (d.find? (fun p => p.1 = k)).map (·.2)

/-- `HashMap::insert` (overwrites any existing binding). -/
def insertD (d : List (String × List Token)) (k : String) (v : List Token) :
    List (String × List Token) :=
  (k, v) :: d.filter (fun p => p.1 ≠ k)

/-- `HashMap::remove` (removing an absent key leaves the map unchanged). -/
def removeD (d : List (String × List Token)) (k : String) :
    List (String × List Token) :=
  d.filter (fun p => p.1 ≠ k)

/-- `Parser::new`. -/
def ParseState.new (filename : String) (tokens : List Token) : ParseState :=
  { tokens := tokens, output := "", map := CodeMap.new, deflist := []
    index := 0, line := 1, filename := filename, warnings := [] }

/-- `Parser::peek` (the `index < len` guard is redundant with `get?`). -/
def ParseState.peek (st : ParseState) : Option Token :=
  st.tokens.get? st.index

/-- `Parser::next`: advance `index` when a token remains (the preprocessor
parser's `next` does not touch `line`). -/
def ParseState.nextP (st : ParseState) : ParseState :=
  match st.tokens.get? st.index with
  | some _ => { st with index := st.index + 1 }
  | none => st

/-- `Parser::consume_whitespace`: skip one `Whitespace` token if present. -/
def ParseState.consume_whitespace (st : ParseState) : ParseState :=
  match st.peek with
  | some ⟨.Whitespace, _⟩ => { st with index := st.index + 1 }
  | _ => st

/-- The parameter-collection loop of `parse_directive`: advance over tokens
until a `Newline` (or EOF), returning `param_span.1`. -/
def paramLoop : Nat → ParseState → Nat → Except LexErr (Nat × ParseState)
  | 0, _, _ => .error .noFuel
  | fuel + 1, st, span1 =>
    match st.peek with
    | some t =>
      if t.kind = .Newline then .ok (span1, st)
      else paramLoop fuel st.nextP (span1 + 1)
    | none => .ok (span1, st)

mutual

/-- `Parser::parse_single_expr`.  Returns `some ()` to continue the parse
loop, `none` at EOF. -/
def parse_single_expr (fs : Fs) : Nat → ParseState → Except LexErr (Option Unit × ParseState)
  | 0, _ => .error .noFuel
  | fuel + 1, st =>
    match st.peek with
    | none => .ok (none, st)
    | some tok =>
      match tok.kind with
      | .Newline =>
        let st := { st with output := st.output.push '\n', line := st.line + 1 }
        let st := st.nextP
        let st := { st with map := st.map.add_entry 0 st.line }
        .ok (some (), st.consume_whitespace)
      | .Whitespace => .ok (some (), { st.nextP with output := st.output.push ' ' })
      | .Code d => .ok (some (), { st.nextP with output := st.output ++ d })
      | .Str d =>
        .ok (some (), { st.nextP with output := st.output ++ "\"" ++ d ++ "\"" })
      | .Include => parse_directive fs fuel st
      | .Define => parse_directive fs fuel st
      | .Undef => parse_directive fs fuel st
      | .NoneK => .ok (some (), st)
      -- `parser.rs`'s match has no `Integer` arm at all (the match is not
      -- exhaustive over `lexer.rs`'s `TokenKind`; the two files are out of
      -- sync, cf. the `Lexer::new` arity they disagree on).  It is
      -- modelled like the `None` arm: a no-op that never consumes, i.e. a
      -- diverging loop, so it can never contribute to an `Ok` run.
      | .Integer _ => .ok (some (), st)

/-- `Parser::parse_directive`.  (The preprocessor lexer never emits
`Integer` tokens inside this parser's callers' reachable states, but the
arms are modelled as written.)  Note the `Include` arm checks only that
the parameter list is non-empty and that its *first* token is a string:
any extra parameter tokens are consumed by the parameter loop and then
ignored. -/
def parse_directive (fs : Fs) : Nat → ParseState → Except LexErr (Option Unit × ParseState)
  | 0, _ => .error .noFuel
  | fuel + 1, st => do
    let (directive, st) ←
      match st.peek with
      | some t =>
        match t.kind with
        | .Include => .ok (TokenKind.Include, st.nextP)
        | .Define => .ok (TokenKind.Define, st.nextP)
        | .Undef => .ok (TokenKind.Undef, st.nextP)
        | _ => .error (LexErr.err "parse_directive() called on a non-directive")
      | none => .error (LexErr.err "parse_directive() called on EOF")
    let st := st.consume_whitespace
    let span0 := st.index
    let (span1, st) ← paramLoop fuel st st.index
    match directive with
    | .Include =>
      if span1 - span0 = 0 then
        .error (.err "#INCLUDE expects exactly one string parameter. No parameters found.")
      else
        match st.tokens.get? span0 with
        | some ⟨.Str path, _⟩ => do
          let subprogram ← read_file fs path
          let lexer ← tokenize fuel subprogram.data
          let parser ← parse fs fuel path lexer.tokens
          .ok (some (), { st with
            output := st.output ++ parser.output
            map := st.map.push parser.map })
        | _ => .error (.err "#INCLUDE expects just one string parameter.")
    | .Define =>
      if span1 - span0 = 0 then
        .error (.err "#DEFINE expects at least one parameter. No parameters found.")
      else
        match st.tokens.get? span0 with
        | some ⟨.Code def_name, _⟩ =>
          let st :=
            if (lookupD st.deflist def_name).isSome then
              { st with warnings := st.warnings ++
                ["#DEFINE is called on " ++ def_name ++
                 ", but it was previously defined (value was overwritten)"] }
            else st
          let body := (st.tokens.drop (span0 + 1)).take (span1 - (span0 + 1))
          .ok (some (), { st with deflist := insertD st.deflist def_name body })
        | _ => .error (.err "#DEFINE expects a name as its first argument.")
    | .Undef =>
      if span1 - span0 = 0 then
        .error (.err "#UNDEF expects exactly one string parameter. No parameters found.")
      else
        match st.tokens.get? span0 with
        | some ⟨.Code def_name, _⟩ =>
          let st :=
            if (lookupD st.deflist def_name).isSome then st
            else
              { st with warnings := st.warnings ++
                ["#UNDEF is called on " ++ def_name ++
                 ", but it was not previously defined"] }
          .ok (some (), { st with deflist := removeD st.deflist def_name })
        | _ => .error (.err "#UNDEF expects one name parameter")
    | _ => .error (.err "parse_directive() expected a directive")

/-- The `loop` in `Parser::parse`. -/
def parseLoop (fs : Fs) : Nat → ParseState → Except LexErr ParseState
  | 0, _ => .error .noFuel
  | fuel + 1, st => do
    match ← parse_single_expr fs fuel st with
    | (some (), st) => parseLoop fs fuel st
    | (none, st) => .ok st

/-- `Parser::parse` from a fresh parser (`Parser::new(filename, tokens)`):
push the filename, add the initial line entry, then loop.  Errors are
wrapped with the current line, as in the Rust `Err` arm. -/
def parse (fs : Fs) : Nat → String → List Token → Except LexErr ParseState
  | 0, _, _ => .error .noFuel
  | fuel + 1, filename, tokens =>
    let st := ParseState.new filename tokens
    let st := { st with map :=
      { st.map with filenames := st.map.filenames ++ [filename] } }
    let st := { st with map := st.map.add_entry 0 st.line }
    (parseLoop fs fuel st).mapError
      (fun e => match e with
        | .err m => .err ("Error on line " ++ toString st.line ++ ": " ++ m)
        | e => e)

end

end PP

/-! ## Assembler lexer (`basm/src/lexer.rs`) -/

namespace Asm

/-- `TokenKind` of the assembler crate, as declared in `lexer.rs`, plus the
`Colon` variant: `parser.rs` pattern-matches `TokenKind::Colon` although
the enum in `lexer.rs` does not declare it (the two files are out of
sync); the embedding includes the variant so the parser can be modelled
as written.  The embedded lexer never produces it. -/
inductive TokenKind where
  | Str (s : String)
  | Label (s : String)
  | Integer (n : Nat)
  | Comma | OpenParen | CloseParen | Plus | Minus | Times | Div
  | Ac | Br | Ix | Sp | Imm | Stack
  | Mov | Add | Adc | Sub | Sbb | Sbw | Swb | Nnd | And | Aib | Anb
  | Bia | Bna | Ora | Nor | Jmp | Hlt | Jsr | Ret | Dec | Inc | Cmp
  | Xor | Xnr | Clc | Clz | Sec | Sez
  | C | Z | Nc | Nz | Cz | Ncz
  | Org | Db
  | NoneK
  | Colon
  deriving Repr

/-- Injective encoding of `TokenKind` used for its equality instance
(the derived instance's matcher is avoided for its sheer size). -/
def TokenKind.enc : TokenKind → Nat × String × Nat
  | .Str s => (0, s, 0)
  | .Label s => (1, s, 0)
  | .Integer n => (2, "", n)
  | .Comma => (3, "", 0)
  | .OpenParen => (4, "", 0)
  | .CloseParen => (5, "", 0)
  | .Plus => (6, "", 0)
  | .Minus => (7, "", 0)
  | .Times => (8, "", 0)
  | .Div => (9, "", 0)
  | .Ac => (10, "", 0)
  | .Br => (11, "", 0)
  | .Ix => (12, "", 0)
  | .Sp => (13, "", 0)
  | .Imm => (14, "", 0)
  | .Stack => (15, "", 0)
  | .Mov => (16, "", 0)
  | .Add => (17, "", 0)
  | .Adc => (18, "", 0)
  | .Sub => (19, "", 0)
  | .Sbb => (20, "", 0)
  | .Sbw => (21, "", 0)
  | .Swb => (22, "", 0)
  | .Nnd => (23, "", 0)
  | .And => (24, "", 0)
  | .Aib => (25, "", 0)
  | .Anb => (26, "", 0)
  | .Bia => (27, "", 0)
  | .Bna => (28, "", 0)
  | .Ora => (29, "", 0)
  | .Nor => (30, "", 0)
  | .Jmp => (31, "", 0)
  | .Hlt => (32, "", 0)
  | .Jsr => (33, "", 0)
  | .Ret => (34, "", 0)
  | .Dec => (35, "", 0)
  | .Inc => (36, "", 0)
  | .Cmp => (37, "", 0)
  | .Xor => (38, "", 0)
  | .Xnr => (39, "", 0)
  | .Clc => (40, "", 0)
  | .Clz => (41, "", 0)
  | .Sec => (42, "", 0)
  | .Sez => (43, "", 0)
  | .C => (44, "", 0)
  | .Z => (45, "", 0)
  | .Nc => (46, "", 0)
  | .Nz => (47, "", 0)
  | .Cz => (48, "", 0)
  | .Ncz => (49, "", 0)
  | .Org => (50, "", 0)
  | .Db => (51, "", 0)
  | .NoneK => (52, "", 0)
  | .Colon => (53, "", 0)

/-- Left inverse of `TokenKind.enc`. -/
def TokenKind.dec : Nat × String × Nat → TokenKind
  | (0, s, _) => .Str s
  | (1, s, _) => .Label s
  | (2, _, n) => .Integer n
  | (3, _, _) => .Comma
  | (4, _, _) => .OpenParen
  | (5, _, _) => .CloseParen
  | (6, _, _) => .Plus
  | (7, _, _) => .Minus
  | (8, _, _) => .Times
  | (9, _, _) => .Div
  | (10, _, _) => .Ac
  | (11, _, _) => .Br
  | (12, _, _) => .Ix
  | (13, _, _) => .Sp
  | (14, _, _) => .Imm
  | (15, _, _) => .Stack
  | (16, _, _) => .Mov
  | (17, _, _) => .Add
  | (18, _, _) => .Adc
  | (19, _, _) => .Sub
  | (20, _, _) => .Sbb
  | (21, _, _) => .Sbw
  | (22, _, _) => .Swb
  | (23, _, _) => .Nnd
  | (24, _, _) => .And
  | (25, _, _) => .Aib
  | (26, _, _) => .Anb
  | (27, _, _) => .Bia
  | (28, _, _) => .Bna
  | (29, _, _) => .Ora
  | (30, _, _) => .Nor
  | (31, _, _) => .Jmp
  | (32, _, _) => .Hlt
  | (33, _, _) => .Jsr
  | (34, _, _) => .Ret
  | (35, _, _) => .Dec
  | (36, _, _) => .Inc
  | (37, _, _) => .Cmp
  | (38, _, _) => .Xor
  | (39, _, _) => .Xnr
  | (40, _, _) => .Clc
  | (41, _, _) => .Clz
  | (42, _, _) => .Sec
  | (43, _, _) => .Sez
  | (44, _, _) => .C
  | (45, _, _) => .Z
  | (46, _, _) => .Nc
  | (47, _, _) => .Nz
  | (48, _, _) => .Cz
  | (49, _, _) => .Ncz
  | (50, _, _) => .Org
  | (51, _, _) => .Db
  | (53, _, _) => .Colon
  | _ => .NoneK

theorem TokenKind.dec_enc : ∀ k : TokenKind, TokenKind.dec (TokenKind.enc k) = k := by
  intro k
  cases k <;> rfl

instance : DecidableEq TokenKind := fun a b =>
  if h : a.enc = b.enc then
    .isTrue (by rw [← TokenKind.dec_enc a, ← TokenKind.dec_enc b, h])
  else .isFalse (fun he => h (by rw [he]))

structure Token where
  kind : TokenKind
  span : Nat
  line : Nat
  deriving DecidableEq, Repr

/-- `tokenize_number` (assembler crate: `u16` result, prefixes `0x`, `0o`
and `0b`).  As in the preprocessor, `read.len() > 2` is a byte length and
`&read[0..2]` may panic off a char boundary. -/
def tokenize_number (data : List Char) : Except LexErr Token := do
  let (read, bytes_read) ← (takeWhileRes rustIsAlphanumeric data).mapError .err
  let result_num : Except LexErr (Option Nat) :=
    if byteLen read > 2 then
      match takeBytes read 2 with
      | none => .error (.panicked "byte index 2 is not a char boundary")
      | some pre =>
        if pre = ['0', 'x'] then .ok (PP.from_str_radix 65535 16 (read.drop 2))
        else if pre = ['0', 'o'] then .ok (PP.from_str_radix 65535 8 (read.drop 2))
        else if pre = ['0', 'b'] then .ok (PP.from_str_radix 65535 2 (read.drop 2))
        else .ok (PP.from_str_radix 65535 10 read)
    else .ok (PP.from_str_radix 65535 10 read)
  match ← result_num with
  | some n => .ok ⟨.Integer n, bytes_read, 0⟩
  | none => .error (.err ("Could not parse number: " ++ String.mk read))

/-- `tokenize_string_literal` (assembler crate).  Identical scan to the
preprocessor's, but the reported `span` is `bytes_read` (the quotes are
*not* added, unlike the preprocessor's version). -/
def tokenize_string_literal (data : List Char) : Except LexErr Token := do
  let (content, bytes_read) ← PP.string_lit_loop (data.drop 1)
  if bytes_read = 0 then .error (.err "No matches")
  else .ok ⟨.Str (String.mk content), bytes_read, 0⟩

/-- The keyword table of `tokenize_identifier`. -/
def keywordKind (s : List Char) : TokenKind :=
  if s = "mov".data then .Mov else if s = "add".data then .Add
  else if s = "adc".data then .Adc else if s = "sub".data then .Sub
  else if s = "sbb".data then .Sbb else if s = "sbw".data then .Sbw
  else if s = "swb".data then .Swb else if s = "nnd".data then .Nnd
  else if s = "and".data then .And else if s = "aib".data then .Aib
  else if s = "anb".data then .Anb else if s = "bia".data then .Bia
  else if s = "bna".data then .Bna else if s = "ora".data then .Ora
  else if s = "nor".data then .Nor else if s = "jmp".data then .Jmp
  else if s = "hlt".data then .Hlt else if s = "jsr".data then .Jsr
  else if s = "ret".data then .Ret else if s = "dec".data then .Dec
  else if s = "inc".data then .Inc else if s = "cmp".data then .Cmp
  else if s = "xor".data then .Xor else if s = "xnr".data then .Xnr
  else if s = "clc".data then .Clc else if s = "clz".data then .Clz
  else if s = "sec".data then .Sec else if s = "sez".data then .Sez
  else if s = "c".data then .C else if s = "z".data then .Z
  else if s = "nc".data then .Nc else if s = "nz".data then .Nz
  else if s = "cz".data then .Cz else if s = "ncz".data then .Ncz
  else if s = "ac".data then .Ac else if s = "br".data then .Br
  else if s = "ix".data then .Ix else if s = "sp".data then .Sp
  else if s = "imm".data then .Imm else if s = "stack".data then .Stack
  else .Label (String.mk s)

/-- `tokenize_identifier`: keyword or (lowercased) label. -/
def tokenize_identifier (data : List Char) : Except LexErr Token := do
  let (read, bytes_read) ←
    (takeWhileRes (fun c => c = '_' || rustIsAlphanumeric c) data).mapError .err
  .ok ⟨keywordKind (PP.lowerAscii read), bytes_read, 0⟩

/-- `tokenize_directive` (assembler crate: dot directives `.org`/`.db`). -/
def tokenize_directive (data : List Char) : Except LexErr Token := do
  let (read, bytes_read) ←
    (takeWhileRes (fun c => c = '_' || c = '.' || rustIsAlphanumeric c) data).mapError .err
  let kind : Except LexErr TokenKind :=
    if PP.lowerAscii read = ".org".data then .ok .Org
    else if PP.lowerAscii read = ".db".data then .ok .Db
    else .error (.err ("Unknown dot directive " ++ String.mk read))
  .ok ⟨← kind, bytes_read, 0⟩

/-- `tokenize_one_token` (assembler crate).  Note there is no arm for a
single quote `'`: a character literal's opening quote falls through to the
final `Unexpected character` error. -/
def tokenize_one_token (data : List Char) : Except LexErr Token :=
  match data.head? with
  | none => .error (.err "Unexpected EOF")
  | some next =>
    if next = ',' then .ok ⟨.Comma, 1, 0⟩
    else if next = '(' then .ok ⟨.OpenParen, 1, 0⟩
    else if next = ')' then .ok ⟨.CloseParen, 1, 0⟩
    else if next = '+' then .ok ⟨.Plus, 1, 0⟩
    else if next = '-' then .ok ⟨.Minus, 1, 0⟩
    else if next = '*' then .ok ⟨.Times, 1, 0⟩
    else if next = '/' then .ok ⟨.Div, 1, 0⟩
    else if next = '.' then tokenize_directive data
    else if '0' ≤ next ∧ next ≤ '9' then tokenize_number data
    else if next = '"' then tokenize_string_literal data
    else if rustIsAlphanumeric next || next = '_' then tokenize_identifier data
    else .error (.err ("Unexpected character " ++ String.mk [next]))

/-- The assembler `Lexer` state: `data`, byte span position, current line,
and accumulated tokens (the assembler lexer has no `CodeMap`). -/
structure LexState where
  data : List Char
  pos : Nat
  line : Nat
  tokens : List Token
  deriving DecidableEq, Repr

/-- One iteration of the `while` loop in the assembler `Lexer::tokenize`:
the same byte-offset/char-index dispatch as the preprocessor's lexer.
Whitespace, comments and newlines become `TokenKind::None` and are not
pushed; newlines bump `line`. -/
def lexStep (st : LexState) : Except LexErr LexState := do
  match st.data.get? st.pos with
  | none => .error (.panicked "Lexer object span broke. Did you forget a quote?")
  | some c =>
    let selRes : Except LexErr (List Char) :=
      match dropBytes st.data st.pos with
      | some sel => .ok sel
      | none => .error (.panicked "byte index is not a char boundary")
    let (val, consumed, line) ←
      if rustIsWhitespace c ∧ c ≠ '\n' then do
        let sel ← selRes
        pure (TokenKind.NoneK, PP.skip_white_space sel, st.line)
      else if c = ';' then do
        let sel ← selRes
        let n ← PP.skip_comment sel
        pure (TokenKind.NoneK, n, st.line)
      else if c = '\n' then
        pure (TokenKind.NoneK, 1, st.line + 1)
      else do
        let sel ← selRes
        let tok ← (tokenize_one_token sel).mapError
          (fun e => match e with
            | .err m => .err ("Error on line: " ++ m)
            | e => e)
        pure (tok.kind, tok.span, st.line)
    let st := { st with pos := st.pos + consumed, line := line }
    match val with
    | .NoneK => .ok st
    | _ => .ok { st with tokens := st.tokens ++ [⟨val, consumed, st.line⟩] }

/-- The `while self.span.0 != self.span.1` loop of the assembler
`Lexer::tokenize`. -/
def lexLoop : Nat → LexState → Except LexErr LexState
  | 0, _ => .error .noFuel
  | fuel + 1, st =>
    if st.pos ≠ byteLen st.data then do
      lexLoop fuel (← lexStep st)
    else .ok st

/-- `Lexer::new(data)` followed by `tokenize()`, returning the token
vector. -/
def tokenize (fuel : Nat) (data : List Char) : Except LexErr (List Token) :=
  (lexLoop fuel { data := data, pos := 0, line := 1, tokens := [] }).map (·.tokens)

/-! ## Assembler parser (`basm/src/parser.rs`)

Every parser method takes `&mut self` and returns
`Result<Option<Expr>, String>`; the embedding threads the state
explicitly, so a method becomes
`Nat → PState → Except String (Option Expr) × PState` (the state is
returned even on `Err`, since `Parser::parse` reports `self.line` at the
time of the error).  The fuel argument makes the mutual recursion
(`hardware → hardware_or_expression → hardware`, the `term`/`factor`
loops, `unary → unary`) structurally terminating; fuel exhaustion is the
error `"NO_FUEL"`, which no theorem treats as a successful parse. -/

inductive ExprKind where
  | Instruction (t : TokenKind)
  | Op (t : TokenKind)
  | Str (s : String)
  | Reference (indexed : Bool)
  | Register (t : TokenKind)
  | Directive (t : TokenKind)
  | Expression
  | Term
  | Factor
  | Unary
  | Primary
  | Integer (n : Nat)
  | Label (s : String)
  | Operator (t : TokenKind)
  deriving DecidableEq, Repr

inductive Expr where
  | mk (kind : ExprKind) (exprs : List Expr) (line : Nat)
  deriving Repr

def Expr.kind : Expr → ExprKind
  | .mk k _ _ => k

def Expr.exprs : Expr → List Expr
  | .mk _ es _ => es

def Expr.line : Expr → Nat
  | .mk _ _ l => l

/-- The assembler `Parser` struct. -/
structure PState where
  tokens : List Token
  index : Nat
  line : Nat
  deriving Repr

/-- A method result: the `Result` value plus the state after the call. -/
def PRes (α : Type) : Type := Except String α × PState

/-- `Parser::peek` (the `index != len` test is redundant with `get?`). -/
def PState.peek (st : PState) : Option Token :=
  st.tokens.get? st.index

/-- `Parser::next`: advance and record the consumed token's line. -/
def PState.nextT (st : PState) : Option Token × PState :=
  match st.tokens.get? st.index with
  | some t => (some t, { st with index := st.index + 1, line := t.line })
  | none => (none, st)

/-- Is this kind one of the condition keywords? -/
def isCondKind : TokenKind → Bool
  | .C | .Z | .Nc | .Nz | .Cz | .Ncz => true
  | _ => false

/-- Is this kind one of the opcode keywords (the big match in `op`)? -/
def isOpKind : TokenKind → Bool
  | .Mov | .Add | .Adc | .Sub | .Sbb | .Sbw | .Swb | .Nnd | .And | .Aib
  | .Anb | .Bia | .Bna | .Ora | .Nor | .Jmp | .Hlt | .Jsr | .Ret | .Dec
  | .Inc | .Cmp | .Xor | .Xnr | .Clc | .Clz | .Sec | .Sez => true
  | _ => false

/-- Is this kind one of the register keywords? -/
def isRegKind : TokenKind → Bool
  | .Ac | .Br | .Ix | .Sp | .Imm | .Stack => true
  | _ => false

/-- `Parser::primary`: an integer, or a label reference — but when the
label is followed by a `Colon` token the label token is un-consumed
(`self.index -= 1`) and `None` is returned, so the enclosing statement is
parsed as a label declaration instead. -/
def primary (st : PState) : PRes (Option Expr) :=
  match st.peek with
  | none => (.ok none, st)
  | some t =>
    let expr : Expr := .mk .Primary [] t.line
    match t.kind with
    | .Integer n =>
      let st := (st.nextT).2
      (.ok (some (Expr.mk expr.kind (expr.exprs ++ [.mk (.Integer n) [] t.line])
        expr.line)), st)
    | .Label l =>
      let st := (st.nextT).2
      match st.peek with
      | some t2 =>
        if t2.kind = .Colon then
          (.ok none, { st with index := st.index - 1 })
        else
          (.ok (some (Expr.mk expr.kind
            (expr.exprs ++ [.mk (.Label l) [] t.line]) expr.line)), st)
      | none =>
        (.ok (some (Expr.mk expr.kind
          (expr.exprs ++ [.mk (.Label l) [] t.line]) expr.line)), st)
    | _ => (.ok none, st)

/-- `Parser::register` (it does not recurse, so it needs no fuel). -/
def register (st : PState) : PRes (Option Expr) :=
  match st.peek with
  | none => (.ok none, st)
  | some t =>
    if isRegKind t.kind then
      ((.ok (some (.mk (.Register t.kind) [] t.line))), (st.nextT).2)
    else (.ok none, st)

mutual

/-- `Parser::instruction`. -/
def instruction : Nat → PState → PRes (Option Expr)
  | 0, st => (.error "NO_FUEL", st)
  | fuel + 1, st =>
    match st.peek with
    | none => (.ok none, st)
    | some peek1 =>
      let condRes : Except String (ExprKind × PState) :=
        if peek1.kind = .Minus then
          let st := (st.nextT).2
          match st.peek with
          | none => .error "Expected condition after the minus, found EOF"
          | some peek2 =>
            if isCondKind peek2.kind then
              .ok (.Instruction peek2.kind, (st.nextT).2)
            else .error "Expected condition after the minus"
        else .ok (.Instruction .NoneK, st)
      match condRes with
      | .error e => (.error e, st)
      | .ok (kind, st) =>
        match op fuel st with
        | (.error e, st) => (.error e, st)
        | (.ok none, st) => (.ok none, st)
        | (.ok (some opE), st) =>
          (.ok (some (.mk kind [opE] opE.line)), st)

/-- `Parser::op`. -/
def op : Nat → PState → PRes (Option Expr)
  | 0, st => (.error "NO_FUEL", st)
  | fuel + 1, st =>
    match st.peek with
    | none => (.ok none, st)
    | some op_token =>
      if isOpKind op_token.kind then
        let opE : Expr := .mk (.Op op_token.kind) [] op_token.line
        let st := (st.nextT).2
        match hardware_or_expression fuel st with
        | (.error e, st) => (.error e, st)
        | (.ok none, st) => (.ok (some opE), st)
        | (.ok (some val), st) =>
          let opE := Expr.mk opE.kind (opE.exprs ++ [val]) opE.line
          match st.peek with
          | some t =>
            if t.kind = .Comma then
              let st := (st.nextT).2
              match hardware_or_expression fuel st with
              | (.error e, st) => (.error e, st)
              | (.ok none, st) => (.error "No 2nd parameter after the comma", st)
              | (.ok (some val2), st) =>
                (.ok (some (Expr.mk opE.kind (opE.exprs ++ [val2]) opE.line)), st)
            else (.ok (some opE), st)
          | none => (.ok (some opE), st)
      else (.ok none, st)

/-- `Parser::hardware_or_expression`. -/
def hardware_or_expression : Nat → PState → PRes (Option Expr)
  | 0, st => (.error "NO_FUEL", st)
  | fuel + 1, st =>
    match hardware fuel st with
    | (.error e, st) => (.error e, st)
    | (.ok (some e), st) => (.ok (some e), st)
    | (.ok none, st) =>
      match expression fuel st with
      | (.error e, st) => (.error e, st)
      | (.ok (some e), st) => (.ok (some e), st)
      | (.ok none, st) => (.ok none, st)

/-- `Parser::hardware`. -/
def hardware : Nat → PState → PRes (Option Expr)
  | 0, st => (.error "NO_FUEL", st)
  | fuel + 1, st =>
    match register st with
    | (.error e, st) => (.error e, st)
    | (.ok (some e), st) => (.ok (some e), st)
    | (.ok none, st) =>
      match expression fuel st with
      | (.error e, st) => (.error e, st)
      | (.ok (some e), st) => (.ok (some e), st)
      | (.ok none, st) =>
        match st.peek with
        | none => (.ok none, st)
        | some t =>
          if t.kind = .OpenParen then
            let line := t.line
            let st := (st.nextT).2
            match hardware_or_expression fuel st with
            | (.error e, st) => (.error e, st)
            | (.ok none, st) =>
              (.error "Expected expression or register, found EOF", st)
            | (.ok (some contents), st) =>
              match st.nextT with
              | (some t1, st) =>
                if t1.kind = .CloseParen then
                  (.ok (some (.mk (.Reference false) [contents] line)), st)
                else if t1.kind = .Plus then
                  match st.nextT with
                  | (some t2, st) =>
                    if t2.kind = .Ix then
                      match st.nextT with
                      | (some t3, st) =>
                        if t3.kind = .CloseParen then
                          (.ok (some (.mk (.Reference true) [contents] line)), st)
                        else (.error "Expected close paren", st)
                      | (none, st) => (.error "Expected close paren, found EOF", st)
                    else (.error "Expected IX after plus", st)
                  | (none, st) => (.error "Expected IX after plus, found EOF", st)
                else (.error "Expected close paren or plus IX", st)
              | (none, st) => (.error "Expected close paren or plus IX, found EOF", st)
          else (.ok none, st)

/-- `Parser::expression`. -/
def expression : Nat → PState → PRes (Option Expr)
  | 0, st => (.error "NO_FUEL", st)
  | fuel + 1, st =>
    match st.peek with
    | none => (.ok none, st)
    | some t =>
      let expr : Expr := .mk .Expression [] t.line
      match term fuel st with
      | (.error e, st) => (.error e, st)
      | (.ok none, st) => (.ok none, st)
      | (.ok (some e), st) =>
        (.ok (some (Expr.mk expr.kind (expr.exprs ++ [e]) expr.line)), st)

/-- `Parser::term` up to its `loop`. -/
def term : Nat → PState → PRes (Option Expr)
  | 0, st => (.error "NO_FUEL", st)
  | fuel + 1, st =>
    match st.peek with
    | none => (.ok none, st)
    | some t =>
      let expr : Expr := .mk .Term [] t.line
      match factor fuel st with
      | (.error e, st) => (.error e, st)
      | (.ok none, st) => (.ok none, st)
      | (.ok (some e), st) =>
        match term_loop fuel (Expr.mk expr.kind (expr.exprs ++ [e]) expr.line) st with
        | (.error e2, st) => (.error e2, st)
        | (.ok e2, st) => (.ok (some e2), st)

/-- The `loop` inside `Parser::term`: on `+`/`-` push an `Operator` child
and consume the operator; if the following token is `IX`, un-consume the
operator (`self.index -= 1`) and pop the `Operator` child, then stop;
otherwise require another `factor`. -/
def term_loop : Nat → Expr → PState → PRes Expr
  | 0, _, st => (.error "NO_FUEL", st)
  | fuel + 1, expr, st =>
    match st.peek with
    | some t =>
      if t.kind = .Plus ∨ t.kind = .Minus then
        let expr := Expr.mk expr.kind
          (expr.exprs ++ [.mk (.Operator t.kind) [] t.line]) expr.line
        let st := (st.nextT).2
        if (st.peek).any (fun tk => tk.kind = .Ix) then
          let st := { st with index := st.index - 1 }
          let expr := Expr.mk expr.kind expr.exprs.dropLast expr.line
          (.ok expr, st)
        else
          match factor fuel st with
          | (.error e, st) => (.error e, st)
          | (.ok none, st) => (.error "Expected value after the additive operator", st)
          | (.ok (some e), st) =>
            term_loop fuel (Expr.mk expr.kind (expr.exprs ++ [e]) expr.line) st
      else (.ok expr, st)
    | none => (.ok expr, st)

/-- `Parser::factor` up to its `loop`. -/
def factor : Nat → PState → PRes (Option Expr)
  | 0, st => (.error "NO_FUEL", st)
  | fuel + 1, st =>
    match st.peek with
    | none => (.ok none, st)
    | some t =>
      let expr : Expr := .mk .Factor [] t.line
      match unary fuel st with
      | (.error e, st) => (.error e, st)
      | (.ok none, st) => (.ok none, st)
      | (.ok (some e), st) =>
        match factor_loop fuel (Expr.mk expr.kind (expr.exprs ++ [e]) expr.line) st with
        | (.error e2, st) => (.error e2, st)
        | (.ok e2, st) => (.ok (some e2), st)

/-- The `loop` inside `Parser::factor`. -/
def factor_loop : Nat → Expr → PState → PRes Expr
  | 0, _, st => (.error "NO_FUEL", st)
  | fuel + 1, expr, st =>
    match st.peek with
    | some t =>
      if t.kind = .Times ∨ t.kind = .Div then
        let expr := Expr.mk expr.kind
          (expr.exprs ++ [.mk (.Operator t.kind) [] t.line]) expr.line
        let st := (st.nextT).2
        match unary fuel st with
        | (.error e, st) => (.error e, st)
        | (.ok none, st) =>
          (.error "Expected value after the multiplicative operator", st)
        | (.ok (some e), st) =>
          factor_loop fuel (Expr.mk expr.kind (expr.exprs ++ [e]) expr.line) st
      else (.ok expr, st)
    | none => (.ok expr, st)

/-- `Parser::unary`. -/
def unary : Nat → PState → PRes (Option Expr)
  | 0, st => (.error "NO_FUEL", st)
  | fuel + 1, st =>
    match st.peek with
    | none => (.ok none, st)
    | some t =>
      let expr : Expr := .mk .Unary [] t.line
      if t.kind = .Plus ∨ t.kind = .Minus then
        let expr := Expr.mk expr.kind
          (expr.exprs ++ [.mk (.Operator t.kind) [] t.line]) expr.line
        let st := (st.nextT).2
        match unary fuel st with
        | (.error e, st) => (.error e, st)
        | (.ok none, st) => (.error "Expected value after unary operator", st)
        | (.ok (some e), st) =>
          (.ok (some (Expr.mk expr.kind (expr.exprs ++ [e]) expr.line)), st)
      else
        match primary st with
        | (.error e, st) => (.error e, st)
        | (.ok none, st) => (.ok none, st)
        | (.ok (some e), st) =>
          (.ok (some (Expr.mk expr.kind (expr.exprs ++ [e]) expr.line)), st)

end

/-- The argument loop of `Parser::directive`. -/
def directive_loop : Nat → Expr → PState → PRes Expr
  | 0, _, st => (.error "NO_FUEL", st)
  | fuel + 1, dir, st =>
    match expression fuel st with
    | (.error e, st) => (.error e, st)
    | (.ok r, st) =>
      let dir := match r with
        | some e => Expr.mk dir.kind (dir.exprs ++ [e]) dir.line
        | none => dir
      match st.peek with
      | some t =>
        match t.kind with
        | .Str s =>
          let st := (st.nextT).2
          directive_loop fuel
            (Expr.mk dir.kind (dir.exprs ++ [.mk (.Str s) [] t.line]) dir.line) st
        | _ => (.ok dir, st)
      | none => (.ok dir, st)

/-- `Parser::directive`. -/
def directive (fuel : Nat) (st : PState) : PRes (Option Expr) :=
  match st.peek with
  | none => (.ok none, st)
  | some t =>
    match t.kind with
    | .Org =>
      let st := (st.nextT).2
      match directive_loop fuel (.mk (.Directive .Org) [] t.line) st with
      | (.error e, st) => (.error e, st)
      | (.ok d, st) => (.ok (some d), st)
    | .Db =>
      let st := (st.nextT).2
      match directive_loop fuel (.mk (.Directive .Db) [] t.line) st with
      | (.error e, st) => (.error e, st)
      | (.ok d, st) => (.ok (some d), st)
    | _ => (.ok none, st)

/-- `Parser::label`: a `Label` token that must be followed by a `Colon`
token (`TokenKind::Colon` — the variant `parser.rs` expects the lexer to
emit). -/
def labelStmt (st : PState) : PRes (Option Expr) :=
  match st.peek with
  | none => (.ok none, st)
  | some t =>
    match t.kind with
    | .Label n =>
      let line := t.line
      let st := (st.nextT).2
      match st.peek with
      | none => (.ok none, st)
      | some colon_token =>
        if colon_token.kind = .Colon then
          (.ok (some (.mk (.Label n) [] line)), (st.nextT).2)
        else (.error ("Unknown label " ++ n), st)
    | _ => (.ok none, st)

/-- `Parser::parse_one_statement`. -/
def parse_one_statement (fuel : Nat) (st : PState) : PRes (Option Expr) :=
  match instruction fuel st with
  | (.error e, st) => (.error e, st)
  | (.ok (some i), st) => (.ok (some i), st)
  | (.ok none, st) =>
    match directive fuel st with
    | (.error e, st) => (.error e, st)
    | (.ok (some d), st) => (.ok (some d), st)
    | (.ok none, st) =>
      match labelStmt st with
      | (.error e, st) => (.error e, st)
      | (.ok (some l), st) => (.ok (some l), st)
      | (.ok none, st) =>
        match st.peek with
        | some _ => (.error "Unexpected token", st)
        | none => (.ok none, st)

/-- The `loop` of `Parser::parse`. -/
def parseLoop (fuel : Nat) : Nat → PState → List Expr → Except (String × Nat) (List Expr)
  | 0, st, _ => .error ("NO_FUEL", st.line)
  | outer + 1, st, acc =>
    match parse_one_statement fuel st with
    | (.error e, st) => .error (e, st.line)
    | (.ok (some s), st) => parseLoop fuel outer st (acc ++ [s])
    | (.ok none, _) => .ok acc

/-- `Parser::new(tokens)` followed by `Parser::parse`. -/
def parse (fuel : Nat) (tokens : List Token) : Except (String × Nat) (List Expr) :=
  parseLoop fuel fuel { tokens := tokens, index := 0, line := 1 } []

end Asm

/-! ## Predicates used by the theorem statements -/

/-- Number of newline characters in a char list. -/
def countNl (l : List Char) : Nat := l.count '\n'

/-- Number of newline characters in a string. -/
def strCountNl (s : String) : Nat := s.data.count '\n'

/-- Every character is a single UTF-8 byte (ASCII). -/
def asciiOnly (l : List Char) : Prop := ∀ c ∈ l, c.toNat < 128

namespace PP

/-- Is this a `Newline` token? -/
def isNewlineTok (t : Token) : Bool := t.kind = TokenKind.Newline

/-- Number of `Newline` tokens. -/
def nlToks (ts : List Token) : Nat := ts.countP isNewlineTok

/-- The token's text (the content of a `Code` or `Str` token) contains no
newline character. -/
def cleanText (t : Token) : Prop :=
  match t.kind with
  | .Code s => ('\n') ∉ s.data
  | .Str s => ('\n') ∉ s.data
  | _ => True

instance (t : Token) : Decidable (cleanText t) := by
  unfold cleanText; cases t.kind <;> infer_instance

/-- A string-literal token's content contains no newline character (other
tokens are unconstrained). -/
def cleanStr (t : Token) : Prop :=
  match t.kind with
  | .Str s => ('\n') ∉ s.data
  | _ => True

instance (t : Token) : Decidable (cleanStr t) := by
  unfold cleanStr; cases t.kind <;> infer_instance

/-- A `Code` token's content contains no newline character. -/
def cleanCode (t : Token) : Prop :=
  match t.kind with
  | .Code s => ('\n') ∉ s.data
  | _ => True

/-- The bookkeeping facts relating a parser state to a later state of the
same run, used for the `parse` loop invariants: the token list, filename
and filename table never change; line entries are only appended, with
`filename_index` 0 (absent an `#include`); the number of line entries
grows exactly by the number of newlines appended to the output; and the
newlines appended to the output are exactly the `Newline` tokens consumed.
-/
def StepFacts (st st2 : ParseState) : Prop :=
  st2.tokens = st.tokens ∧
  st2.filename = st.filename ∧
  st2.map.filenames = st.map.filenames ∧
  (∀ e ∈ st2.map.line_entries, e ∈ st.map.line_entries ∨ e.filename_index = 0) ∧
  st2.map.line_entries.length + strCountNl st.output
    = st.map.line_entries.length + strCountNl st2.output ∧
  strCountNl st2.output + nlToks (st.tokens.take st.index)
    = strCountNl st.output + nlToks (st2.tokens.take st2.index)

end PP

/-! # Theorems -/

/-- **C1.**  For every pair of `CodeMap`s `a` and `b` in which every line
entry's `filename_index` is a valid index into that map's `filenames`
list, after `a.push(b)`: the pre-existing entries of `a` are unchanged,
the merged map is again well-formed, and for every `i` the appended entry
at position `a.line_entries.length + i` resolves via `get_from` on its
1-based output line to exactly the `(filename, source_line)` pair that
`b`'s entry at position `i` resolved to in `b` before the merge. -/
theorem C1_push_preserves_resolution (a b : CodeMap)
    (ha : a.WellFormed) (hb : b.WellFormed) :
    (a.push b).line_entries.take a.line_entries.length = a.line_entries ∧
    (a.push b).WellFormed ∧
    ∀ i < b.line_entries.length,
      (a.push b).get_from (a.line_entries.length + i + 1) = b.get_from (i + 1) := by
  refine ⟨?_, ?_, ?_⟩
  · simp [CodeMap.push, List.take_left]
  · intro e he
    simp only [CodeMap.push, List.mem_append, List.mem_map] at he
    simp only [CodeMap.push, List.length_append]
    rcases he with he | ⟨e0, he0, rfl⟩
    · exact lt_of_lt_of_le (ha e he) (Nat.le_add_right _ _)
    · have := hb e0 he0
      simp only
      omega
  · intro i hi
    obtain ⟨e, he⟩ : ∃ e, b.line_entries[i]? = some e := by
      exact ⟨_, List.getElem?_eq_getElem hi⟩
    have hmem : e ∈ b.line_entries := by
      exact List.getElem?_mem he
    have hfi := hb e hmem
    obtain ⟨f, hf⟩ : ∃ f, b.filenames[e.filename_index]? = some f := by
      exact ⟨_, List.getElem?_eq_getElem hfi⟩
    have h1 : (a.push b).line_entries[a.line_entries.length + i + 1 - 1]? =
        some ⟨e.filename_index + a.filenames.length, e.line⟩ := by
      have : a.line_entries.length + i + 1 - 1 = a.line_entries.length + i := rfl
      rw [this]
      simp only [CodeMap.push]
      rw [List.getElem?_append_right (by omega)]
      simp only [Nat.add_sub_cancel_left]
      rw [List.getElem?_map, he]
      rfl
    have h2 : (a.push b).filenames[e.filename_index + a.filenames.length]? = some f := by
      simp only [CodeMap.push]
      rw [List.getElem?_append_right (by omega)]
      simpa using hf
    simp only [CodeMap.get_from, h1, h2, Option.bind_eq_bind, Option.some_bind]
    simp only [Nat.add_sub_cancel, he, Option.some_bind, hf]

/-- Witness for C1 at a concrete pair of well-formed maps. -/
theorem C1_push_preserves_resolution_witness :
    ((CodeMap.mk ["a.s"] [⟨0, 3⟩]).WellFormed ∧
      (CodeMap.mk ["b.s"] [⟨0, 7⟩]).WellFormed) ∧
    (((CodeMap.mk ["a.s"] [⟨0, 3⟩]).push (CodeMap.mk ["b.s"] [⟨0, 7⟩])).line_entries.take
        (CodeMap.mk ["a.s"] [⟨0, 3⟩]).line_entries.length
      = (CodeMap.mk ["a.s"] [⟨0, 3⟩]).line_entries ∧
    ((CodeMap.mk ["a.s"] [⟨0, 3⟩]).push (CodeMap.mk ["b.s"] [⟨0, 7⟩])).WellFormed ∧
    ∀ i < (CodeMap.mk ["b.s"] [⟨0, 7⟩]).line_entries.length,
      ((CodeMap.mk ["a.s"] [⟨0, 3⟩]).push (CodeMap.mk ["b.s"] [⟨0, 7⟩])).get_from
          ((CodeMap.mk ["a.s"] [⟨0, 3⟩]).line_entries.length + i + 1)
        = (CodeMap.mk ["b.s"] [⟨0, 7⟩]).get_from (i + 1)) :=
  ⟨⟨by decide, by decide⟩,
    C1_push_preserves_resolution _ _ (by decide) (by decide)⟩

/-- **C3.**  The claim says a parameter list that is not exactly one
string literal is rejected; in fact the `Include` arm only checks that the
list is non-empty and that its *first* token is a string literal, so
`#include "f2" x` — a string literal followed by an extra token — is
*accepted*: `parse` returns `Ok`, splicing in file `f2` and silently
dropping the extra `x` parameter (the code's own error message,
"#INCLUDE expects exactly one string parameter", documents the stricter
intent).  This theorem evaluates the parser at that failing input. -/
theorem C3_include_extra_param_accepted :
    PP.parse [("f2", "")] 20 "f"
      [⟨.Include, 8⟩, ⟨.Str "f2", 4⟩, ⟨.Code "x", 1⟩] =
    .ok { tokens := [⟨.Include, 8⟩, ⟨.Str "f2", 4⟩, ⟨.Code "x", 1⟩],
          output := "", map := ⟨["f", "f2"], [⟨0, 1⟩, ⟨1, 1⟩]⟩,
          deflist := [], index := 3, line := 1, filename := "f",
          warnings := [] } := by
  rfl

/-- **C4.**  The claim says `loop: mov ac, 1` lexes and parses with a
label-declaration statement.  In fact the assembler lexer has no arm for
`:` (its `TokenKind` lacks the `Colon` variant `parser.rs` matches on),
so lexing `loop: mov ac, 1` fails with `Unexpected character :` (first
conjunct).  The remaining conjuncts evaluate the parts of the claim the
code does satisfy: `mov ac, loop` lexes, and parses with the label
reference as the instruction's second operand (not a label declaration);
and the parser, given the token sequence the lexer was meant to produce
(with a `Colon` token), does yield the label-declaration statement
preceding the `mov` instruction. -/
theorem C4_label_declaration_vs_reference :
    Asm.tokenize 40 "loop: mov ac, 1".data
      = .error (.err "Error on line: Unexpected character :") ∧
    Asm.tokenize 40 "mov ac, loop".data
      = .ok [⟨.Mov, 3, 1⟩, ⟨.Ac, 2, 1⟩, ⟨.Comma, 1, 1⟩, ⟨.Label "loop", 4, 1⟩] ∧
    Asm.parse 20 [⟨.Mov, 3, 1⟩, ⟨.Ac, 2, 1⟩, ⟨.Comma, 1, 1⟩, ⟨.Label "loop", 4, 1⟩]
      = .ok [.mk (.Instruction .NoneK)
          [.mk (.Op .Mov)
            [.mk (.Register .Ac) [] 1,
             .mk .Expression
               [.mk .Term
                 [.mk .Factor
                   [.mk .Unary
                     [.mk .Primary [.mk (.Label "loop") [] 1] 1] 1] 1] 1] 1] 1] 1] ∧
    Asm.parse 20 [⟨.Label "loop", 4, 1⟩, ⟨.Colon, 1, 1⟩, ⟨.Mov, 3, 1⟩,
        ⟨.Ac, 2, 1⟩, ⟨.Comma, 1, 1⟩, ⟨.Integer 1, 1, 1⟩]
      = .ok [.mk (.Label "loop") [] 1,
          .mk (.Instruction .NoneK)
          [.mk (.Op .Mov)
            [.mk (.Register .Ac) [] 1,
             .mk .Expression
               [.mk .Term
                 [.mk .Factor
                   [.mk .Unary
                     [.mk .Primary [.mk (.Integer 1) [] 1] 1] 1] 1] 1] 1] 1] 1] := by
  exact ⟨rfl, rfl, rfl, rfl⟩

/-- **C5.**  The claim says `tokenize` never aborts on any input,
including multi-byte UTF-8.  In fact the loop dispatches on
`chars().nth(self.span.0)` — a char index fed with a byte offset — so on
the 4-byte, 3-char input `é\n` (and any input whose multi-byte characters
are followed by more text) the lexer hits its
`panic!("Lexer object span broke…")` (first conjunct: the run aborts, it
does not return a `Result`).  The second conjunct shows the part of the
claim the code satisfies: an unterminated (ASCII) string literal is
surfaced as an ordinary `Err`. -/
theorem C5_tokenize_multibyte_panics :
    PP.tokenize 10 "é\n".data
      = .error (.panicked "Lexer object span broke. Did you forget a quote?") ∧
    PP.tokenize 10 "\"abc".data
      = .error (.err "Error on line: Reached EOF before finding a quote") := by
  exact ⟨rfl, rfl⟩

/-- Any successful `from_str_radix` with maximum `max` stays within
`max`. -/
theorem from_str_radix_le (max radix : Nat) (xs : List Char) (n : Nat)
    (h : PP.from_str_radix max radix xs = some n) : n ≤ max := by
  unfold PP.from_str_radix at h
  split at h
  · split at h
    · cases h
      assumption
    · cases h
  · cases h

/-- **C7.**  The assembler's integer tokenizer produces 31 for `0x1F`,
5 for `0b101`, 15 for `0o17`, 42 for `42`, 65535 for `0xFFFF`, and an
overflow error for `0x10000`; and in general any successful
`tokenize_number` yields an `Integer` token whose value fits in 16
unsigned bits. -/
theorem C7_tokenize_number_radices :
    Asm.tokenize_number "0x1F".data = .ok ⟨.Integer 31, 4, 0⟩ ∧
    Asm.tokenize_number "0b101".data = .ok ⟨.Integer 5, 5, 0⟩ ∧
    Asm.tokenize_number "0o17".data = .ok ⟨.Integer 15, 4, 0⟩ ∧
    Asm.tokenize_number "42".data = .ok ⟨.Integer 42, 2, 0⟩ ∧
    Asm.tokenize_number "0xFFFF".data = .ok ⟨.Integer 65535, 6, 0⟩ ∧
    Asm.tokenize_number "0x10000".data
      = .error (.err "Could not parse number: 0x10000") ∧
    ∀ cs t, Asm.tokenize_number cs = .ok t →
      ∃ n, t.kind = .Integer n ∧ n < 65536 := by
  refine ⟨rfl, rfl, rfl, rfl, rfl, rfl, ?_⟩
  intro cs t h
  unfold Asm.tokenize_number at h
  cases he : takeWhileRes rustIsAlphanumeric cs with
  | error e =>
    rw [he] at h
    simp [Except.mapError, Except.bind, bind] at h
  | ok rk =>
    obtain ⟨read, k⟩ := rk
    rw [he] at h
    simp only [Except.mapError, bind, Except.bind] at h
    have key : ∀ (v : Except LexErr (Option Nat)),
        (v >>= fun r =>
          match r with
          | some n => Except.ok (⟨Asm.TokenKind.Integer n, k, 0⟩ : Asm.Token)
          | none => Except.error (LexErr.err ("Could not parse number: " ++ String.mk read)))
          = .ok t →
        ∃ n, v = .ok (some n) ∧ t = ⟨.Integer n, k, 0⟩ := by
      intro v hv
      cases v with
      | error e => simp [bind, Except.bind] at hv
      | ok r =>
        cases r with
        | none => simp [bind, Except.bind] at hv
        | some n =>
          simp only [bind, Except.bind] at hv
          cases hv
          exact ⟨n, rfl, rfl⟩
    obtain ⟨n, hv, rfl⟩ := key _ h
    have hb : n ≤ 65535 := by
      split at hv
      all_goals try split at hv
      all_goals try split at hv
      all_goals try split at hv
      all_goals try split at hv
      all_goals
        first
        | cases hv
        | (injection hv with hv2
           exact from_str_radix_le _ _ _ _ hv2)
    exact ⟨n, rfl, by omega⟩

/-- **C8.**  The claim says single-quoted character literals lex to an
`Integer` token holding the code point.  In fact `tokenize_one_token` has
no arm for a single quote at all (and no escape handling for
`\n`/`\c`/`\z`/`\\`/`\'` exists anywhere in the lexer): on the input
`'a'` the opening quote is reported as an `Unexpected character` error —
both from `tokenize_one_token` directly and from the full lexer.
(Character 39 is the single quote.) -/
theorem C8_char_literal_unexpected_character :
    Asm.tokenize_one_token [Char.ofNat 39, 'a', Char.ofNat 39]
      = .error (.err ("Unexpected character " ++ String.mk [Char.ofNat 39])) ∧
    Asm.tokenize 20 [Char.ofNat 39, 'a', Char.ofNat 39]
      = .error (.err ("Error on line: Unexpected character "
          ++ String.mk [Char.ofNat 39])) := by
  exact ⟨rfl, rfl⟩

/-- Removing a key that is not bound leaves the `deflist` unchanged. -/
theorem removeD_of_lookup_none (d : List (String × List PP.Token)) (n : String)
    (h : PP.lookupD d n = none) : PP.removeD d n = d := by
  unfold PP.lookupD at h
  rw [Option.map_eq_none'] at h
  rw [List.find?_eq_none] at h
  unfold PP.removeD
  apply List.filter_eq_self.mpr
  intro p hp
  simpa using h p hp

/-- Inserting a binding makes lookup return it. -/
theorem lookupD_insertD (d : List (String × List PP.Token)) (n : String)
    (v : List PP.Token) : PP.lookupD (PP.insertD d n v) n = some v := by
  simp [PP.lookupD, PP.insertD, List.find?]

/-- **C10.**  A `#define` whose name is already present in the macro table
returns `Ok` and replaces the stored body, emitting only a warning; a
`#undef` naming a macro that was never defined returns `Ok` and leaves
the macro table unchanged, emitting only a warning; in both cases
`parse_single_expr` reports `some ()`, so the parse loop continues
normally. -/
theorem C10_define_overwrite_undef_missing
    (fs : PP.Fs)
    (d1 : List (String × List PP.Token)) (n1 w : String) (old : List PP.Token)
    (out1 fn1 : String) (m1 : CodeMap) (ln1 : Nat) (ws1 : List String)
    (d2 : List (String × List PP.Token)) (n2 : String)
    (out2 fn2 : String) (m2 : CodeMap) (ln2 : Nat) (ws2 : List String)
    (h1 : PP.lookupD d1 n1 = some old)
    (h2 : PP.lookupD d2 n2 = none) :
    (PP.parse_single_expr fs 5
        ⟨[⟨.Define, 7⟩, ⟨.Code n1, 6⟩, ⟨.Code w, 1⟩], out1, m1, d1, 0, ln1, fn1, ws1⟩
      = .ok (some (),
        ⟨[⟨.Define, 7⟩, ⟨.Code n1, 6⟩, ⟨.Code w, 1⟩], out1, m1,
         PP.insertD d1 n1 [⟨.Code w, 1⟩], 3, ln1, fn1,
         ws1 ++ ["#DEFINE is called on " ++ n1 ++
           ", but it was previously defined (value was overwritten)"]⟩) ∧
      PP.lookupD (PP.insertD d1 n1 [⟨.Code w, 1⟩]) n1 = some [⟨.Code w, 1⟩]) ∧
    PP.parse_single_expr fs 5
        ⟨[⟨.Undef, 6⟩, ⟨.Code n2, 6⟩], out2, m2, d2, 0, ln2, fn2, ws2⟩
      = .ok (some (),
        ⟨[⟨.Undef, 6⟩, ⟨.Code n2, 6⟩], out2, m2, d2, 2, ln2, fn2,
         ws2 ++ ["#UNDEF is called on " ++ n2 ++
           ", but it was not previously defined"]⟩) := by
  refine ⟨⟨?_, lookupD_insertD d1 n1 [⟨.Code w, 1⟩]⟩, ?_⟩
  · simp [PP.parse_single_expr, PP.parse_directive, PP.paramLoop,
      PP.ParseState.peek, PP.ParseState.nextP, PP.ParseState.consume_whitespace,
      h1, bind, Except.bind]
  · simp [PP.parse_single_expr, PP.parse_directive, PP.paramLoop,
      PP.ParseState.peek, PP.ParseState.nextP, PP.ParseState.consume_whitespace,
      h2, bind, Except.bind, removeD_of_lookup_none d2 n2 h2]

/-- Witness for C10 at a concrete macro table. -/
theorem C10_define_overwrite_undef_missing_witness :
    (PP.lookupD [("X", [])] "X" = some [] ∧ PP.lookupD [("X", [])] "Y" = none) ∧
    ((PP.parse_single_expr [] 5
        ⟨[⟨.Define, 7⟩, ⟨.Code "X", 6⟩, ⟨.Code "w", 1⟩], "", CodeMap.new,
          [("X", [])], 0, 1, "f", []⟩
      = .ok (some (),
        ⟨[⟨.Define, 7⟩, ⟨.Code "X", 6⟩, ⟨.Code "w", 1⟩], "", CodeMap.new,
         PP.insertD [("X", [])] "X" [⟨.Code "w", 1⟩], 3, 1, "f",
         [] ++ ["#DEFINE is called on " ++ "X" ++
           ", but it was previously defined (value was overwritten)"]⟩) ∧
      PP.lookupD (PP.insertD [("X", [])] "X" [⟨.Code "w", 1⟩]) "X"
        = some [⟨.Code "w", 1⟩]) ∧
    PP.parse_single_expr [] 5
        ⟨[⟨.Undef, 6⟩, ⟨.Code "Y", 6⟩], "", CodeMap.new, [("X", [])], 0, 1, "f", []⟩
      = .ok (some (),
        ⟨[⟨.Undef, 6⟩, ⟨.Code "Y", 6⟩], "", CodeMap.new, [("X", [])], 2, 1, "f",
         [] ++ ["#UNDEF is called on " ++ "Y" ++
           ", but it was not previously defined"]⟩)) :=
  ⟨⟨by decide, by decide⟩,
    C10_define_overwrite_undef_missing [] [("X", [])] "X" "w" [] "" "f"
      CodeMap.new 1 [] [("X", [])] "Y" "" "f" CodeMap.new 1 []
      (by decide) (by decide)⟩

/-- **C6.**  The operand tokens `(` `AC` `+` `IX` `)` parse into a
`Reference` node with `indexed = true` wrapping a register operand, and
`(` `AC` `)` into a `Reference` node with `indexed = false`; a
parenthesized *expression* followed by `+IX` (here `(` `5` `+` `IX` `)`)
also parses as an indexed reference; and in general whenever the `term`
loop sees a `+` or `-` whose next token is `IX`, it un-consumes the
operator token (`self.index -= 1`, and the pushed `Operator` child is
popped again) instead of treating it as arithmetic. -/
theorem C6_indexed_reference_parsing :
    Asm.hardware 30 ⟨[⟨.OpenParen, 1, 1⟩, ⟨.Ac, 2, 1⟩, ⟨.Plus, 1, 1⟩,
        ⟨.Ix, 2, 1⟩, ⟨.CloseParen, 1, 1⟩], 0, 1⟩
      = (.ok (some (.mk (.Reference true) [.mk (.Register .Ac) [] 1] 1)),
         ⟨[⟨.OpenParen, 1, 1⟩, ⟨.Ac, 2, 1⟩, ⟨.Plus, 1, 1⟩,
           ⟨.Ix, 2, 1⟩, ⟨.CloseParen, 1, 1⟩], 5, 1⟩) ∧
    Asm.hardware 30 ⟨[⟨.OpenParen, 1, 1⟩, ⟨.Ac, 2, 1⟩, ⟨.CloseParen, 1, 1⟩], 0, 1⟩
      = (.ok (some (.mk (.Reference false) [.mk (.Register .Ac) [] 1] 1)),
         ⟨[⟨.OpenParen, 1, 1⟩, ⟨.Ac, 2, 1⟩, ⟨.CloseParen, 1, 1⟩], 3, 1⟩) ∧
    Asm.hardware 30 ⟨[⟨.OpenParen, 1, 1⟩, ⟨.Integer 5, 1, 1⟩, ⟨.Plus, 1, 1⟩,
        ⟨.Ix, 2, 1⟩, ⟨.CloseParen, 1, 1⟩], 0, 1⟩
      = (.ok (some (.mk (.Reference true)
          [.mk .Expression
            [.mk .Term
              [.mk .Factor
                [.mk .Unary
                  [.mk .Primary [.mk (.Integer 5) [] 1] 1] 1] 1] 1] 1] 1)),
         ⟨[⟨.OpenParen, 1, 1⟩, ⟨.Integer 5, 1, 1⟩, ⟨.Plus, 1, 1⟩,
           ⟨.Ix, 2, 1⟩, ⟨.CloseParen, 1, 1⟩], 5, 1⟩) ∧
    ∀ (fuel : Nat) (k : Asm.ExprKind) (es : List Asm.Expr) (l : Nat)
      (st : Asm.PState) (t u : Asm.Token),
      st.peek = some t →
      (t.kind = .Plus ∨ t.kind = .Minus) →
      st.tokens.get? (st.index + 1) = some u →
      u.kind = .Ix →
      Asm.term_loop (fuel + 1) (.mk k es l) st
        = (.ok (.mk k es l), { st with line := t.line }) := by
  refine ⟨rfl, rfl, rfl, ?_⟩
  intro fuel k es l st t u hpeek hpm hnext hix
  have hpeek' : st.tokens.get? st.index = some t := hpeek
  simp only [Asm.term_loop, Asm.PState.peek, hpeek', if_pos hpm, Asm.PState.nextT]
  simp only [hnext, hix, Option.any_some, Asm.Expr.kind, Asm.Expr.exprs,
    Asm.Expr.line]
  simp [List.dropLast_concat, Nat.add_sub_cancel]

/-- Witness for C6: the `term`-loop backtrack at a concrete state
(`5` `+` `IX`, positioned at the `+`). -/
theorem C6_indexed_reference_parsing_witness :
    ((⟨[⟨.Integer 5, 1, 1⟩, ⟨.Plus, 1, 1⟩, ⟨.Ix, 2, 1⟩], 1, 1⟩ :
        Asm.PState).peek = some ⟨.Plus, 1, 1⟩ ∧
      ((⟨.Plus, 1, 1⟩ : Asm.Token).kind = .Plus ∨
        (⟨.Plus, 1, 1⟩ : Asm.Token).kind = .Minus) ∧
      ([⟨.Integer 5, 1, 1⟩, ⟨.Plus, 1, 1⟩, ⟨.Ix, 2, 1⟩] :
          List Asm.Token).get? (1 + 1) = some ⟨.Ix, 2, 1⟩ ∧
      (⟨.Ix, 2, 1⟩ : Asm.Token).kind = .Ix) ∧
    Asm.term_loop (8 + 1) (.mk .Term [.mk .Factor [] 1] 1)
        ⟨[⟨.Integer 5, 1, 1⟩, ⟨.Plus, 1, 1⟩, ⟨.Ix, 2, 1⟩], 1, 1⟩
      = (.ok (.mk .Term [.mk .Factor [] 1] 1),
         { (⟨[⟨.Integer 5, 1, 1⟩, ⟨.Plus, 1, 1⟩, ⟨.Ix, 2, 1⟩], 1, 1⟩ :
             Asm.PState) with line := (⟨.Plus, 1, 1⟩ : Asm.Token).line }) :=
  ⟨⟨rfl, Or.inl rfl, rfl, rfl⟩,
    (C6_indexed_reference_parsing.2.2.2) 8 .Term [.mk .Factor [] 1] 1
      ⟨[⟨.Integer 5, 1, 1⟩, ⟨.Plus, 1, 1⟩, ⟨.Ix, 2, 1⟩], 1, 1⟩
      ⟨.Plus, 1, 1⟩ ⟨.Ix, 2, 1⟩ rfl (Or.inl rfl) rfl rfl⟩

/-! ### Counting helpers for the preprocessor parse-loop invariant -/

theorem strCountNl_push (s : String) (c : Char) :
    strCountNl (s.push c) = strCountNl s + (if c = '\n' then 1 else 0) := by
  unfold strCountNl
  have : (s.push c).data = s.data ++ [c] := rfl
  rw [this, List.count_append]
  simp [List.count_cons, countNl]

theorem strCountNl_append (s t : String) :
    strCountNl (s ++ t) = strCountNl s + strCountNl t := by
  unfold strCountNl
  have : (s ++ t).data = s.data ++ t.data := rfl
  rw [this, List.count_append]

theorem nlToks_take_succ (ts : List PP.Token) (i : Nat) (t : PP.Token)
    (h : ts.get? i = some t) :
    PP.nlToks (ts.take (i + 1))
      = PP.nlToks (ts.take i) + (if PP.isNewlineTok t then 1 else 0) := by
  unfold PP.nlToks
  have h' : ts[i]? = some t := by rw [← List.get?_eq_getElem?]; exact h
  rw [List.take_succ, h', List.countP_append]
  simp [List.countP_cons]

theorem stepFacts_refl (st : PP.ParseState) : PP.StepFacts st st :=
  ⟨rfl, rfl, rfl, fun _ he => Or.inl he, rfl, rfl⟩

theorem stepFacts_trans {a b c : PP.ParseState}
    (h1 : PP.StepFacts a b) (h2 : PP.StepFacts b c) : PP.StepFacts a c := by
  obtain ⟨t1, f1, fn1, o1, l1, n1⟩ := h1
  obtain ⟨t2, f2, fn2, o2, l2, n2⟩ := h2
  refine ⟨t2.trans t1, f2.trans f1, fn2.trans fn1, ?_, by omega, ?_⟩
  · intro e he
    rcases o2 e he with he' | hz
    · exact o1 e he'
    · exact Or.inr hz
  · rw [t2, t1] at n2
    rw [t1] at n1
    rw [t2.trans t1]
    omega

/-- `Parser::next` on a non-`Newline` token (or at EOF) preserves the
step facts. -/
theorem stepFacts_nextP (st : PP.ParseState)
    (h : ∀ t, st.peek = some t → ¬ PP.isNewlineTok t) :
    PP.StepFacts st st.nextP := by
  unfold PP.ParseState.nextP
  cases hg : st.tokens.get? st.index with
  | none => exact stepFacts_refl st
  | some t =>
    have hnl := h t hg
    refine ⟨rfl, rfl, rfl, fun _ he => Or.inl he, rfl, ?_⟩
    simp only
    rw [nlToks_take_succ st.tokens st.index t hg, if_neg hnl]
    omega

/-- `consume_whitespace` preserves the step facts. -/
theorem stepFacts_cw (st : PP.ParseState) :
    PP.StepFacts st st.consume_whitespace := by
  unfold PP.ParseState.consume_whitespace
  cases hg : st.peek with
  | none => exact stepFacts_refl st
  | some t =>
    obtain ⟨k, sp⟩ := t
    cases k <;> try exact stepFacts_refl st
    refine ⟨rfl, rfl, rfl, fun _ he => Or.inl he, rfl, ?_⟩
    simp only
    rw [nlToks_take_succ st.tokens st.index _ hg]
    simp [PP.isNewlineTok]

/-- The parameter loop of `parse_directive` preserves the step facts. -/
theorem paramLoop_facts : ∀ (fuel : Nat) (st : PP.ParseState) (s1 s2 : Nat)
    (st2 : PP.ParseState),
    PP.paramLoop fuel st s1 = .ok (s2, st2) → PP.StepFacts st st2 := by
  intro fuel
  induction fuel with
  | zero => intro st s1 s2 st2 h; cases h
  | succ n ih =>
    intro st s1 s2 st2 h
    unfold PP.paramLoop at h
    split at h
    · rename_i t hg
      split at h
      · cases h
        exact stepFacts_refl st
      · rename_i hnl
        refine stepFacts_trans ?_ (ih _ _ _ _ h)
        refine stepFacts_nextP st ?_
        intro t2 hg2
        rw [hg] at hg2
        cases hg2
        simpa [PP.isNewlineTok] using hnl
    · cases h
      exact stepFacts_refl st

/-- A character that is not in a list occurs zero times. -/

theorem count_nil_of_not_mem {c : Char} {l : List Char} (h : c ∉ l) : l.count c = 0 :=
  List.count_eq_zero.mpr h

set_option maxHeartbeats 1000000 in
/-- The joint step lemma for `parse_single_expr` and `parse_directive`:
in the absence of `#include` tokens and of newline characters inside
`Code`/`Str` token texts, one parse step preserves the `StepFacts`
invariant; `parse_single_expr` reports `none` only at EOF with the state
unchanged, and a successful `parse_directive` always reports `some ()`. -/
theorem psePd_facts : ∀ fuel : Nat,
    (∀ (fs : PP.Fs) (st : PP.ParseState) (r : Option Unit) (st2 : PP.ParseState),
      (∀ t ∈ st.tokens, t.kind ≠ PP.TokenKind.Include) →
      (∀ t ∈ st.tokens, PP.cleanText t) →
      PP.parse_single_expr fs fuel st = .ok (r, st2) →
      PP.StepFacts st st2 ∧ (r = none → st2 = st ∧ st.peek = none)) ∧
    (∀ (fs : PP.Fs) (st : PP.ParseState) (r : Option Unit) (st2 : PP.ParseState),
      (∀ t ∈ st.tokens, t.kind ≠ PP.TokenKind.Include) →
      (∀ t ∈ st.tokens, PP.cleanText t) →
      PP.parse_directive fs fuel st = .ok (r, st2) →
      PP.StepFacts st st2 ∧ r = some ()) := by
  intro fuel
  induction fuel with
  | zero =>
    constructor <;> (intro fs st r st2 _ _ h; cases h)
  | succ n ih =>
    obtain ⟨ihe, ihd⟩ := ih
    constructor
    · intro fs st r st2 hinc hclean h
      unfold PP.parse_single_expr at h
      split at h
      · -- peek = none
        cases h
        exact ⟨stepFacts_refl st, fun _ => ⟨rfl, by assumption⟩⟩
      · rename_i tok heq
        have heq' : st.tokens.get? st.index = some tok := heq
        have hmem : tok ∈ st.tokens := List.get?_mem heq'
        split at h
        -- Newline
        · rename_i hk
          cases h
          refine ⟨?_, fun hc => Option.noConfusion hc⟩
          simp only [PP.ParseState.nextP, heq']
          refine stepFacts_trans ?_ (stepFacts_cw _)
          refine ⟨rfl, rfl, rfl, ?_, ?_, ?_⟩
          · intro e he
            simp only [CodeMap.add_entry, List.mem_append, List.mem_singleton] at he
            rcases he with he | rfl
            · exact Or.inl he
            · exact Or.inr rfl
          · simp only [CodeMap.add_entry, List.length_append, List.length_singleton,
              strCountNl_push]
            simp
            omega
          · simp only [strCountNl_push]
            rw [nlToks_take_succ st.tokens st.index tok heq']
            simp [PP.isNewlineTok, hk]
            omega
        -- Whitespace
        · rename_i hk
          cases h
          refine ⟨?_, fun hc => Option.noConfusion hc⟩
          simp only [PP.ParseState.nextP, heq']
          refine ⟨rfl, rfl, rfl, fun e he => Or.inl he, ?_, ?_⟩
          · simp [strCountNl_push]
          · simp only [strCountNl_push]
            rw [nlToks_take_succ st.tokens st.index tok heq']
            simp [PP.isNewlineTok, hk]
        -- Code d
        · rename_i d hk
          cases h
          refine ⟨?_, fun hc => Option.noConfusion hc⟩
          have hcl : ('\n') ∉ d.data := by
            have := hclean tok hmem
            unfold PP.cleanText at this
            rw [hk] at this
            exact this
          have hnl0 : strCountNl d = 0 := count_nil_of_not_mem hcl
          simp only [PP.ParseState.nextP, heq']
          refine ⟨rfl, rfl, rfl, fun e he => Or.inl he, ?_, ?_⟩
          · simp [strCountNl_append, hnl0]
          · simp only [strCountNl_append, hnl0]
            rw [nlToks_take_succ st.tokens st.index tok heq']
            simp [PP.isNewlineTok, hk]
        -- Str d
        · rename_i d hk
          cases h
          refine ⟨?_, fun hc => Option.noConfusion hc⟩
          have hcl : ('\n') ∉ d.data := by
            have := hclean tok hmem
            unfold PP.cleanText at this
            rw [hk] at this
            exact this
          have hnl0 : strCountNl d = 0 := count_nil_of_not_mem hcl
          have hq : strCountNl "\"" = 0 := rfl
          simp only [PP.ParseState.nextP, heq']
          refine ⟨rfl, rfl, rfl, fun e he => Or.inl he, ?_, ?_⟩
          · simp [strCountNl_append, hnl0, hq]
          · simp only [strCountNl_append, hnl0, hq]
            rw [nlToks_take_succ st.tokens st.index tok heq']
            simp [PP.isNewlineTok, hk]
        -- Include / Define / Undef
        · exact ⟨(ihd fs st r st2 hinc hclean h).1,
            fun hc => by
              have h2 := (ihd fs st r st2 hinc hclean h).2
              rw [h2] at hc
              exact Option.noConfusion hc⟩
        · exact ⟨(ihd fs st r st2 hinc hclean h).1,
            fun hc => by
              have h2 := (ihd fs st r st2 hinc hclean h).2
              rw [h2] at hc
              exact Option.noConfusion hc⟩
        · exact ⟨(ihd fs st r st2 hinc hclean h).1,
            fun hc => by
              have h2 := (ihd fs st r st2 hinc hclean h).2
              rw [h2] at hc
              exact Option.noConfusion hc⟩
        -- NoneK
        · cases h
          exact ⟨stepFacts_refl st, fun hc => Option.noConfusion hc⟩
        -- Integer
        · cases h
          exact ⟨stepFacts_refl st, fun hc => Option.noConfusion hc⟩
    · intro fs st r st2 hinc hclean h
      unfold PP.parse_directive at h
      split at h
      · rename_i tok heq
        have heq' : st.tokens.get? st.index = some tok := heq
        have hmem : tok ∈ st.tokens := List.get?_mem heq'
        have hfacts1 : tok.kind ≠ PP.TokenKind.Newline →
            PP.StepFacts st (st.nextP.consume_whitespace) := by
          intro hknl
          refine stepFacts_trans ?_ (stepFacts_cw _)
          refine stepFacts_nextP st ?_
          intro t2 hg2
          rw [heq] at hg2
          cases hg2
          simpa [PP.isNewlineTok] using hknl
        split at h
        -- Include
        · rename_i hk
          exact absurd hk (hinc tok hmem)
        -- Define
        · rename_i hk
          simp only [bind, Except.bind] at h
          cases hpl : PP.paramLoop n st.nextP.consume_whitespace
              st.nextP.consume_whitespace.index with
          | error e => rw [hpl] at h; cases h
          | ok p =>
            obtain ⟨span1, st3⟩ := p
            rw [hpl] at h
            simp only at h
            split at h
            · cases h
            · split at h
              · rename_i def_name sp hgd
                have hfacts : PP.StepFacts st st3 :=
                  stepFacts_trans (hfacts1 (by rw [hk]; simp))
                    (paramLoop_facts _ _ _ _ _ hpl)
                by_cases hlk : (PP.lookupD st3.deflist def_name).isSome = true
                · simp only [hlk, if_true] at h
                  cases h
                  exact ⟨stepFacts_trans hfacts
                    ⟨rfl, rfl, rfl, fun e he => Or.inl he, rfl, rfl⟩, rfl⟩
                · simp only [hlk, if_false] at h
                  cases h
                  exact ⟨stepFacts_trans hfacts
                    ⟨rfl, rfl, rfl, fun e he => Or.inl he, rfl, rfl⟩, rfl⟩
              · cases h
        -- Undef
        · rename_i hk
          simp only [bind, Except.bind] at h
          cases hpl : PP.paramLoop n st.nextP.consume_whitespace
              st.nextP.consume_whitespace.index with
          | error e => rw [hpl] at h; cases h
          | ok p =>
            obtain ⟨span1, st3⟩ := p
            rw [hpl] at h
            simp only at h
            split at h
            · cases h
            · split at h
              · rename_i def_name sp hgd
                have hfacts : PP.StepFacts st st3 :=
                  stepFacts_trans (hfacts1 (by rw [hk]; simp))
                    (paramLoop_facts _ _ _ _ _ hpl)
                by_cases hlk : (PP.lookupD st3.deflist def_name).isSome = true
                · simp only [hlk, if_true] at h
                  cases h
                  exact ⟨stepFacts_trans hfacts
                    ⟨rfl, rfl, rfl, fun e he => Or.inl he, rfl, rfl⟩, rfl⟩
                · simp only [hlk, if_false] at h
                  cases h
                  exact ⟨stepFacts_trans hfacts
                    ⟨rfl, rfl, rfl, fun e he => Or.inl he, rfl, rfl⟩, rfl⟩
              · cases h
        -- non-directive kind
        · rename_i hk
          simp [bind, Except.bind] at h
      · simp [bind, Except.bind] at h

/-- `mapError` cannot turn an error into a success. -/
theorem mapError_ok {α β γ : Type} {f : β → γ} {x : Except β α} {b : α}
    (h : x.mapError f = .ok b) : x = .ok b := by
  cases x with
  | error e => simp [Except.mapError] at h
  | ok a => simpa [Except.mapError] using h

/-- The parse loop preserves the step facts and stops only at EOF. -/
theorem parseLoop_facts : ∀ (fuel : Nat) (fs : PP.Fs) (st st2 : PP.ParseState),
    (∀ t ∈ st.tokens, t.kind ≠ PP.TokenKind.Include) →
    (∀ t ∈ st.tokens, PP.cleanText t) →
    PP.parseLoop fs fuel st = .ok st2 →
    PP.StepFacts st st2 ∧ st2.peek = none := by
  intro fuel
  induction fuel with
  | zero => intro fs st st2 _ _ h; cases h
  | succ n ih =>
    intro fs st st2 hinc hclean h
    unfold PP.parseLoop at h
    simp only [bind, Except.bind] at h
    cases hp : PP.parse_single_expr fs n st with
    | error e => rw [hp] at h; cases h
    | ok p =>
      obtain ⟨r, st1⟩ := p
      rw [hp] at h
      obtain ⟨hf1, hnone⟩ := (psePd_facts n).1 fs st r st1 hinc hclean hp
      cases r with
      | some u =>
        cases u
        simp only at h
        have htok : st1.tokens = st.tokens := hf1.1
        have hf2 := ih fs st1 st2 (by rw [htok]; exact hinc)
          (by rw [htok]; exact hclean) h
        exact ⟨stepFacts_trans hf1 hf2.1, hf2.2⟩
      | none =>
        simp only at h
        cases h
        obtain ⟨rfl, hpk⟩ := hnone rfl
        exact ⟨hf1, hpk⟩

/-- A successful `Parser::parse` run, described by the step facts from the
freshly initialised state (one filename, one line entry for line 1, empty
output). -/
theorem parse_succ_facts (fs : PP.Fs) (n : Nat) (name : String)
    (ts : List PP.Token) (st2 : PP.ParseState)
    (hinc : ∀ t ∈ ts, t.kind ≠ PP.TokenKind.Include)
    (hclean : ∀ t ∈ ts, PP.cleanText t)
    (h : PP.parse fs (n + 1) name ts = .ok st2) :
    PP.StepFacts ⟨ts, "", ⟨[name], [⟨0, 1⟩]⟩, [], 0, 1, name, []⟩ st2 ∧
      st2.peek = none := by
  have h2 : PP.parseLoop fs n ⟨ts, "", ⟨[name], [⟨0, 1⟩]⟩, [], 0, 1, name, []⟩
      = .ok st2 := by
    unfold PP.parse at h
    exact mapError_ok h
  exact parseLoop_facts n fs _ st2 hinc hclean h2

set_option maxHeartbeats 2000000 in
/-- Counterexample to **C2** as stated: three `Ok` parses whose `SourceMap`
does *not* satisfy `line_entries.len() = newlines-in-output + 1`:
a string-literal token whose content holds a newline (the parser re-emits
it into the output but adds no line entry); a code token with a newline
(same); and an `#include` (the included map brings its own initial entry,
so entries outrun newlines by one per include). -/
theorem C2_counterexample_entries_vs_newlines :
    (PP.parse [] 20 "f" [⟨.Str "a\nb", 5⟩]
        = .ok ⟨[⟨.Str "a\nb", 5⟩], "\"a\nb\"", ⟨["f"], [⟨0, 1⟩]⟩, [], 1, 1, "f", []⟩ ∧
      (⟨[⟨.Str "a\nb", 5⟩], "\"a\nb\"", ⟨["f"], [⟨0, 1⟩]⟩, [], 1, 1, "f", []⟩ :
        PP.ParseState).map.line_entries.length
        ≠ strCountNl (⟨[⟨.Str "a\nb", 5⟩], "\"a\nb\"", ⟨["f"], [⟨0, 1⟩]⟩, [], 1, 1,
          "f", []⟩ : PP.ParseState).output + 1) ∧
    (PP.parse [] 20 "f" [⟨.Code "a\nb", 3⟩]
        = .ok ⟨[⟨.Code "a\nb", 3⟩], "a\nb", ⟨["f"], [⟨0, 1⟩]⟩, [], 1, 1, "f", []⟩ ∧
      (1 : Nat) ≠ 1 + 1) ∧
    (PP.parse [("g", "a")] 30 "f"
        [⟨.Include, 8⟩, ⟨.Str "g", 3⟩, ⟨.Newline, 1⟩, ⟨.Code "x", 1⟩]
        = .ok ⟨[⟨.Include, 8⟩, ⟨.Str "g", 3⟩, ⟨.Newline, 1⟩, ⟨.Code "x", 1⟩],
            "a\nx", ⟨["f", "g"], [⟨0, 1⟩, ⟨1, 1⟩, ⟨0, 2⟩]⟩, [], 4, 2, "f", []⟩ ∧
      (⟨[⟨.Include, 8⟩, ⟨.Str "g", 3⟩, ⟨.Newline, 1⟩, ⟨.Code "x", 1⟩],
            "a\nx", ⟨["f", "g"], [⟨0, 1⟩, ⟨1, 1⟩, ⟨0, 2⟩]⟩, [], 4, 2, "f", []⟩ :
          PP.ParseState).map.line_entries.length
        ≠ strCountNl (⟨[⟨.Include, 8⟩, ⟨.Str "g", 3⟩, ⟨.Newline, 1⟩, ⟨.Code "x", 1⟩],
            "a\nx", ⟨["f", "g"], [⟨0, 1⟩, ⟨1, 1⟩, ⟨0, 2⟩]⟩, [], 4, 2, "f", []⟩ :
          PP.ParseState).output + 1) := by
  exact ⟨⟨rfl, by decide⟩, ⟨rfl, by decide⟩, ⟨rfl, by decide⟩⟩

/-- **C2** (amended).  For every input token sequence containing no
`#include` token and in which no `Code` or string-literal token's text
contains a newline character, if the preprocessor's `parse()` returns
`Ok`, the resulting map satisfies
`line_entries.len() = (number of newline characters in the emitted
output) + 1`.  (As stated the claim is false: see the counterexample —
newlines inside `Code`/`Str` token texts are emitted without a line
entry, and every spliced `#include` contributes one more entry than it
contributes newlines.) -/
theorem C2_entries_eq_newlines_amended (fs : PP.Fs) (fuel : Nat) (name : String)
    (ts : List PP.Token) (st2 : PP.ParseState)
    (hinc : ∀ t ∈ ts, t.kind ≠ PP.TokenKind.Include)
    (hclean : ∀ t ∈ ts, PP.cleanText t)
    (h : PP.parse fs fuel name ts = .ok st2) :
    st2.map.line_entries.length = strCountNl st2.output + 1 := by
  cases fuel with
  | zero => cases h
  | succ n =>
    obtain ⟨hf, _⟩ := parse_succ_facts fs n name ts st2 hinc hclean h
    have harith := hf.2.2.2.2.1
    simp only at harith
    have h0 : strCountNl "" = 0 := rfl
    rw [h0] at harith
    simp at harith
    omega

/-- Witness for the amended C2 on a concrete clean token sequence. -/
theorem C2_entries_eq_newlines_amended_witness :
    ((∀ t ∈ [(⟨.Code "hi", 2⟩ : PP.Token), ⟨.Newline, 1⟩],
        t.kind ≠ PP.TokenKind.Include) ∧
      (∀ t ∈ [(⟨.Code "hi", 2⟩ : PP.Token), ⟨.Newline, 1⟩], PP.cleanText t) ∧
      PP.parse [] 20 "f" [⟨.Code "hi", 2⟩, ⟨.Newline, 1⟩]
        = .ok ⟨[⟨.Code "hi", 2⟩, ⟨.Newline, 1⟩], "hi\n", ⟨["f"], [⟨0, 1⟩, ⟨0, 2⟩]⟩,
            [], 2, 2, "f", []⟩) ∧
    (⟨[⟨.Code "hi", 2⟩, ⟨.Newline, 1⟩], "hi\n", ⟨["f"], [⟨0, 1⟩, ⟨0, 2⟩]⟩,
        [], 2, 2, "f", []⟩ : PP.ParseState).map.line_entries.length
      = strCountNl (⟨[⟨.Code "hi", 2⟩, ⟨.Newline, 1⟩], "hi\n",
          ⟨["f"], [⟨0, 1⟩, ⟨0, 2⟩]⟩, [], 2, 2, "f", []⟩ : PP.ParseState).output + 1 :=
  ⟨⟨by decide, by decide, rfl⟩,
    C2_entries_eq_newlines_amended [] 20 "f" [⟨.Code "hi", 2⟩, ⟨.Newline, 1⟩] _
      (by decide) (by decide) rfl⟩

/-! ### ASCII and byte-position helpers for the lexer proofs -/

theorem utf8Size_one {c : Char} (h : c.toNat < 128) : c.utf8Size = 1 := by
  unfold Char.utf8Size
  rw [if_pos]
  show c.val.toNat ≤ (0x7F : UInt32).toNat
  have h2 : (0x7F : UInt32).toNat = 127 := rfl
  rw [h2]
  exact Nat.lt_succ_iff.mp h

theorem byteLen_ascii {l : List Char} (h : asciiOnly l) : byteLen l = l.length := by
  induction l with
  | nil => rfl
  | cons c cs ih =>
    have hc : c.utf8Size = 1 := utf8Size_one (h c (List.mem_cons_self c cs))
    have ih2 := ih (fun x hx => h x (List.mem_cons_of_mem c hx))
    simp [byteLen, hc] at ih2 ⊢
    omega

theorem asciiOnly_sublist {l l2 : List Char} (h : asciiOnly l) (hs : l2 ⊆ l) :
    asciiOnly l2 := fun c hc => h c (hs hc)

theorem asciiOnly_drop {l : List Char} (h : asciiOnly l) (n : Nat) :
    asciiOnly (l.drop n) := asciiOnly_sublist h (List.drop_subset n l)

theorem dropBytes_ascii : ∀ (l : List Char), asciiOnly l → ∀ n ≤ l.length,
    dropBytes l n = some (l.drop n) := by
  intro l
  induction l with
  | nil =>
    intro _ n hn
    have : n = 0 := by simpa using hn
    subst this
    rfl
  | cons c cs ih =>
    intro h n hn
    cases n with
    | zero => rfl
    | succ m =>
      have hc : c.utf8Size = 1 := utf8Size_one (h c (List.mem_cons_self c cs))
      unfold dropBytes
      rw [hc]
      rw [if_pos (by omega)]
      have : m + 1 - 1 = m := rfl
      rw [this]
      exact ih (fun x hx => h x (List.mem_cons_of_mem c hx)) m (by simpa using hn)

theorem takeBytes_ascii : ∀ (l : List Char), asciiOnly l → ∀ n ≤ l.length,
    takeBytes l n = some (l.take n) := by
  intro l
  induction l with
  | nil =>
    intro _ n hn
    have : n = 0 := by simpa using hn
    subst this
    rfl
  | cons c cs ih =>
    intro h n hn
    cases n with
    | zero => rfl
    | succ m =>
      have hc : c.utf8Size = 1 := utf8Size_one (h c (List.mem_cons_self c cs))
      unfold takeBytes
      rw [hc]
      rw [if_pos (by omega)]
      have h1 : m + 1 - 1 = m := rfl
      rw [h1]
      rw [ih (fun x hx => h x (List.mem_cons_of_mem c hx)) m (by simpa using hn)]
      rfl

theorem take_while_fst (p : Char → Bool) : ∀ (l : List Char),
    (take_while p l).1 = l.takeWhile p := by
  intro l
  induction l with
  | nil => rfl
  | cons c cs ih =>
    unfold take_while
    by_cases hc : p c
    · simp [hc, List.takeWhile_cons, ih]
    · simp [hc, List.takeWhile_cons]

theorem take_while_snd (p : Char → Bool) : ∀ (l : List Char),
    (take_while p l).2 = byteLen ((take_while p l).1) := by
  intro l
  induction l with
  | nil => rfl
  | cons c cs ih =>
    unfold take_while
    by_cases hc : p c
    · simp [hc, byteLen] at ih ⊢
      omega
    · simp [hc, byteLen]

theorem countNl_zero_of_forall {cs : List Char} (h : ∀ c ∈ cs, c ≠ '\n') :
    countNl cs = 0 :=
  List.count_eq_zero.mpr (fun hmem => (h _ hmem) rfl)

theorem countNl_take_add (l : List Char) (pos k : Nat) :
    countNl (l.take (pos + k)) = countNl (l.take pos) + countNl ((l.drop pos).take k) := by
  unfold countNl
  rw [List.take_add, List.count_append]

theorem countNl_append (a b : List Char) :
    countNl (a ++ b) = countNl a + countNl b := by
  unfold countNl; rw [List.count_append]

theorem string_lit_loop_decomp : ∀ (l s : List Char) (n : Nat),
    PP.string_lit_loop l = .ok (s, n) →
    ∃ body rest, l = body ++ '"' :: rest ∧ byteLen body = n ∧
      (('\n') ∉ s → countNl body = 0) := by
  intro l
  induction l using PP.string_lit_loop.induct with
  | case1 => intro s n h; cases h
  | case2 rest =>
    intro s n h
    cases h
    exact ⟨[], rest, rfl, rfl, fun _ => rfl⟩
  | case3 r2 ih =>
    intro s n h
    unfold PP.string_lit_loop at h
    simp only at h
    cases hr : PP.string_lit_loop r2 with
    | error e => rw [hr] at h; cases h
    | ok p =>
      obtain ⟨s2, n2⟩ := p
      rw [hr] at h
      simp only [Except.map] at h
      cases h
      obtain ⟨body, rest, hb, hlen, _⟩ := ih s2 n2 hr
      refine ⟨'\\' :: 'n' :: body, rest, by rw [hb]; simp, ?_, ?_⟩
      · have e1 : ('\\' : Char).utf8Size = 1 := rfl
        have e2 : ('n' : Char).utf8Size = 1 := rfl
        simp [byteLen, e1, e2] at hlen ⊢
        omega
      · intro hcl
        exact absurd (List.mem_cons_self _ _) hcl
  | case4 r2 ih =>
    intro s n h
    unfold PP.string_lit_loop at h
    simp only at h
    cases hr : PP.string_lit_loop r2 with
    | error e => rw [hr] at h; cases h
    | ok p =>
      obtain ⟨s2, n2⟩ := p
      rw [hr] at h
      simp only [Except.map] at h
      cases h
      obtain ⟨body, rest, hb, hlen, hcnt⟩ := ih s2 n2 hr
      refine ⟨'\\' :: '0' :: body, rest, by rw [hb]; simp, ?_, ?_⟩
      · have e1 : ('\\' : Char).utf8Size = 1 := rfl
        have e2 : ('0' : Char).utf8Size = 1 := rfl
        simp [byteLen, e1, e2] at hlen ⊢
        omega
      · intro hcl
        have hnm : ('\n') ∉ s2 := fun hm => hcl (List.mem_cons_of_mem _ hm)
        have hz : List.count ('\n') body = 0 := hcnt hnm
        simp only [countNl, List.count_cons, hz]
        decide
  | case5 r2 ih =>
    intro s n h
    unfold PP.string_lit_loop at h
    simp only at h
    cases hr : PP.string_lit_loop r2 with
    | error e => rw [hr] at h; cases h
    | ok p =>
      obtain ⟨s2, n2⟩ := p
      rw [hr] at h
      simp only [Except.map] at h
      cases h
      obtain ⟨body, rest, hb, hlen, hcnt⟩ := ih s2 n2 hr
      refine ⟨'\\' :: '\\' :: body, rest, by rw [hb]; simp, ?_, ?_⟩
      · have e1 : ('\\' : Char).utf8Size = 1 := rfl
        simp [byteLen, e1] at hlen ⊢
        omega
      · intro hcl
        have hnm : ('\n') ∉ s2 := fun hm => hcl (List.mem_cons_of_mem _ hm)
        have hz : List.count ('\n') body = 0 := hcnt hnm
        simp only [countNl, List.count_cons, hz]
        decide
  | case6 r2 ih =>
    intro s n h
    unfold PP.string_lit_loop at h
    simp only at h
    cases hr : PP.string_lit_loop r2 with
    | error e => rw [hr] at h; cases h
    | ok p =>
      obtain ⟨s2, n2⟩ := p
      rw [hr] at h
      simp only [Except.map] at h
      cases h
      obtain ⟨body, rest, hb, hlen, hcnt⟩ := ih s2 n2 hr
      refine ⟨'\\' :: '"' :: body, rest, by rw [hb]; simp, ?_, ?_⟩
      · have e1 : ('\\' : Char).utf8Size = 1 := rfl
        have e2 : ('"' : Char).utf8Size = 1 := rfl
        simp [byteLen, e1, e2] at hlen ⊢
        omega
      · intro hcl
        have hnm : ('\n') ∉ s2 := fun hm => hcl (List.mem_cons_of_mem _ hm)
        have hz : List.count ('\n') body = 0 := hcnt hnm
        simp only [countNl, List.count_cons, hz]
        decide
  | case7 c tail hn1 hn2 hn3 hn4 =>
    intro s n h
    rw [PP.string_lit_loop.eq_def] at h
    simp only at h
    cases h
  | case8 =>
    intro s n h
    cases h
  | case9 c rest hq hbs ih =>
    intro s n h
    rw [PP.string_lit_loop.eq_def] at h
    simp only at h
    cases hr : PP.string_lit_loop rest with
    | error e => rw [hr] at h; cases h
    | ok p =>
      obtain ⟨s2, n2⟩ := p
      rw [hr] at h
      simp only [Except.map] at h
      cases h
      obtain ⟨body, rest2, hb, hlen, hcnt⟩ := ih s2 n2 hr
      refine ⟨c :: body, rest2, by rw [hb]; simp, ?_, ?_⟩
      · simp [byteLen] at hlen ⊢
        omega
      · intro hcl
        have hcn : c ≠ ('\n') := fun he => hcl (he ▸ List.mem_cons_self _ _)
        have hnm : ('\n') ∉ s2 := fun hm => hcl (List.mem_cons_of_mem _ hm)
        have hz : List.count ('\n') body = 0 := hcnt hnm
        simp [countNl, List.count_cons, hz, hcn]

theorem subset_of_takeWhile (p : Char → Bool) : ∀ (m : List Char), m.takeWhile p ⊆ m := by
  intro m
  induction m with
  | nil => simp
  | cons c cs ih =>
    rw [List.takeWhile_cons]
    by_cases hc : p c
    · simp only [hc, if_true]
      exact List.cons_subset_cons c ih
    · simp [hc]

theorem take_of_takeWhile (p : Char → Bool) : ∀ (m : List Char),
    m.take ((m.takeWhile p).length) = m.takeWhile p := by
  intro m
  induction m with
  | nil => rfl
  | cons c cs ih =>
    rw [List.takeWhile_cons]
    by_cases hc : p c
    · simp [hc, ih]
    · simp [hc]

theorem forall_of_takeWhile (p : Char → Bool) (m : List Char) :
    ∀ c ∈ m.takeWhile p, p c := fun _ hc => List.mem_takeWhile_imp hc

theorem nlToks_append_one (ts : List PP.Token) (t : PP.Token) :
    PP.nlToks (ts ++ [t]) = PP.nlToks ts + (if PP.isNewlineTok t then 1 else 0) := by
  unfold PP.nlToks
  rw [List.countP_append]
  simp [List.countP_cons]

theorem take_while_pair (p : Char → Bool) (m : List Char) :
    take_while p m = (m.takeWhile p, byteLen (m.takeWhile p)) := by
  have h1 := take_while_fst p m
  have h2 := take_while_snd p m
  rw [h1] at h2
  cases hp : take_while p m
  rw [hp] at h1 h2
  simp at h1 h2
  rw [h1, h2]

/-- `takeWhileRes` in terms of `List.takeWhile`. -/
theorem takeWhileRes_eq (p : Char → Bool) (m : List Char) :
    takeWhileRes p m =
      (if byteLen (m.takeWhile p) = 0 then .error "No matches"
       else .ok (m.takeWhile p, byteLen (m.takeWhile p))) := by
  unfold takeWhileRes
  rw [take_while_pair]

/-- `skip_white_space` always consumes exactly the whitespace-run bytes. -/
theorem skip_white_space_eq (m : List Char) :
    PP.skip_white_space m
      = byteLen (m.takeWhile (fun c => rustIsWhitespace c && c ≠ '\n')) := by
  unfold PP.skip_white_space
  rw [takeWhileRes_eq]
  split
  · rename_i p heq
    split at heq
    · cases heq
    · cases heq
      rfl
  · rename_i e heq
    split at heq
    · rename_i hcond
      omega
    · cases heq

/-- The newline count of the input is unchanged across a span consumed by
a `take_while` whose predicate excludes newlines. -/
theorem countNl_take_skip (data : List Char) (pos k : Nat) (p : Char → Bool)
    (hascii : asciiOnly data)
    (hp : ∀ x, p x = true → x ≠ '\n')
    (hk : k = byteLen ((data.drop pos).takeWhile p)) :
    countNl (data.take (pos + k)) = countNl (data.take pos) := by
  rw [countNl_take_add]
  have hsub : asciiOnly ((data.drop pos).takeWhile p) :=
    asciiOnly_sublist hascii
      (fun c hc => (List.drop_subset pos data) (subset_of_takeWhile p _ hc))
  rw [hk, byteLen_ascii hsub, take_of_takeWhile]
  have hz : countNl ((data.drop pos).takeWhile p) = 0 :=
    countNl_zero_of_forall (fun c hc => hp c (forall_of_takeWhile p _ c hc))
  omega

/-- Spans produced by `takeWhile`-style tokenizers contain no newline
when the predicate rejects newlines. -/
theorem countNl_take_span_of_takeWhile (sel : List Char) (p : Char → Bool)
    (hascii : asciiOnly sel) (hp : p ('\n') = false) :
    countNl (sel.take (byteLen (sel.takeWhile p))) = 0 := by
  have hsub : asciiOnly (sel.takeWhile p) :=
    asciiOnly_sublist hascii (subset_of_takeWhile p sel)
  rw [byteLen_ascii hsub, take_of_takeWhile]
  refine countNl_zero_of_forall (fun c hc he => ?_)
  have hpc := forall_of_takeWhile p sel c hc
  rw [he, hp] at hpc
  cases hpc

/-- A successful `takeWhileRes` returns the `takeWhile` slice and its
byte length. -/
theorem takeWhileRes_ok (p : Char → Bool) (m read : List Char) (k : Nat)
    (h : takeWhileRes p m = .ok (read, k)) :
    read = m.takeWhile p ∧ k = byteLen (m.takeWhile p) := by
  rw [takeWhileRes_eq] at h
  split at h
  · cases h
  · cases h
    exact ⟨rfl, rfl⟩

/-- Characterization of a successful preprocessor `tokenize_directive`. -/
theorem tokenize_directive_chars (sel : List Char) (tok : PP.Token)
    (hascii : asciiOnly sel)
    (h : PP.tokenize_directive sel = .ok tok) :
    tok.kind ≠ .Newline ∧ tok.kind ≠ .NoneK ∧ PP.cleanCode tok ∧
    countNl (sel.take tok.span) = 0 := by
  unfold PP.tokenize_directive at h
  simp only [Except.mapError, bind, Except.bind] at h
  cases htw : takeWhileRes (fun c => c = '_' || c = '#' || rustIsAlphanumeric c) sel with
  | error e => rw [htw] at h; simp at h
  | ok p =>
    obtain ⟨read, bytes⟩ := p
    rw [htw] at h
    simp only [Except.mapError] at h
    obtain ⟨hr, hb⟩ := takeWhileRes_ok _ sel read bytes htw
    have step : countNl (sel.take bytes) = 0 := by
      rw [hb]
      exact countNl_take_span_of_takeWhile sel _ hascii (by decide)
    split at h
    · cases h
    · rename_i k heq
      cases h
      split at heq
      all_goals try (split at heq)
      all_goals try (split at heq)
      all_goals cases heq
      all_goals exact ⟨by simp, by simp, by trivial, step⟩

/-- Characterization of a successful preprocessor `tokenize_number`. -/
theorem pp_tokenize_number_chars (sel : List Char) (tok : PP.Token)
    (hascii : asciiOnly sel)
    (h : PP.tokenize_number sel = .ok tok) :
    tok.kind ≠ .Newline ∧ tok.kind ≠ .NoneK ∧ PP.cleanCode tok ∧
    countNl (sel.take tok.span) = 0 := by
  unfold PP.tokenize_number at h
  simp only [Except.mapError, bind, Except.bind] at h
  cases htw : takeWhileRes rustIsAlphanumeric sel with
  | error e => rw [htw] at h; simp at h
  | ok p =>
    obtain ⟨read, bytes⟩ := p
    rw [htw] at h
    simp only [Except.mapError] at h
    obtain ⟨hr, hb⟩ := takeWhileRes_ok _ sel read bytes htw
    have key : ∀ (v : Except LexErr (Option Nat)) (tk : PP.Token),
        (v >>= fun r =>
          match r with
          | some n =>
            Except.ok (⟨PP.TokenKind.Integer (↑n), bytes⟩ : PP.Token)
          | none => Except.error (LexErr.err ("Could not parse number: "
              ++ String.mk read)))
          = .ok tk →
        ∃ n : Nat, tk = ⟨PP.TokenKind.Integer (↑n), bytes⟩ := by
      intro v tk hv
      cases v with
      | error e => simp [bind, Except.bind] at hv
      | ok r =>
        cases r with
        | none => simp [bind, Except.bind] at hv
        | some n =>
          simp only [bind, Except.bind] at hv
          cases hv
          exact ⟨n, rfl⟩
    obtain ⟨n, rfl⟩ := key _ _ h
    refine ⟨by simp, by simp, by trivial, ?_⟩
    simp only
    rw [hb]
    exact countNl_take_span_of_takeWhile sel _ hascii (by decide)

/-- Characterization of a successful preprocessor `tokenize_string_literal`
on a selection that starts with a double quote. -/
theorem tokenize_string_literal_chars (sel : List Char) (tok : PP.Token)
    (hascii : asciiOnly sel)
    (hq : sel.head? = some ('"'))
    (h : PP.tokenize_string_literal sel = .ok tok) :
    tok.kind ≠ .Newline ∧ tok.kind ≠ .NoneK ∧ PP.cleanCode tok ∧
    (PP.cleanStr tok → countNl (sel.take tok.span) = 0) := by
  unfold PP.tokenize_string_literal at h
  simp only [bind, Except.bind] at h
  cases hsl : PP.string_lit_loop (sel.drop 1) with
  | error e => rw [hsl] at h; cases h
  | ok p =>
    obtain ⟨content, n⟩ := p
    rw [hsl] at h
    simp only at h
    split at h
    · cases h
    · cases h
      refine ⟨by simp, by simp, by trivial, ?_⟩
      intro hcl
      obtain ⟨body, rest, hdecomp, hblen, hcnt⟩ := string_lit_loop_decomp _ _ _ hsl
      have hclc : ('\n') ∉ content := hcl
      have hz : countNl body = 0 := hcnt hclc
      cases sel with
      | nil => cases hq
      | cons c0 tail =>
        have hc0 : c0 = ('"') := by simpa using hq
        subst hc0
        have htail : tail = body ++ ('"') :: rest := by simpa using hdecomp
        have hbody_ascii : asciiOnly body := by
          refine asciiOnly_sublist hascii (fun x hx => ?_)
          rw [htail]
          exact List.mem_cons_of_mem _ (List.mem_append_left _ hx)
        have hblen2 : body.length = n := by rw [← byteLen_ascii hbody_ascii, hblen]
        subst htail
        show countNl (List.take (n + 2) (('"') :: (body ++ ('"') :: rest))) = 0
        rw [show n + 2 = (n + 1) + 1 from rfl, List.take_succ_cons, ← hblen2]
        rw [List.take_append]
        have hstep : countNl (('"') :: (body ++ List.take 1 (('"') :: rest)))
            = countNl body := by
          simp [countNl, List.count_cons, List.count_append]
        rw [hstep]
        exact hz

/-- Characterization of a successful `tokenize_one_token` (preprocessor):
the token is never a `Newline`, its `Code` content (if any) has no
newline, and — provided a `Str` token's content is newline-free — the
consumed span of the selection contains no newline characters. -/
theorem tokenize_one_token_chars (sel : List Char) (rp rp2 : Bool) (tok : PP.Token)
    (hascii : asciiOnly sel)
    (h : PP.tokenize_one_token sel rp = .ok (tok, rp2)) :
    tok.kind ≠ .Newline ∧ tok.kind ≠ .NoneK ∧ PP.cleanCode tok ∧
    (PP.cleanStr tok → countNl (sel.take tok.span) = 0) := by
  unfold PP.tokenize_one_token at h
  cases hh : sel.head? with
  | none => rw [hh] at h; cases h
  | some c =>
    rw [hh] at h
    simp only [bind, Except.bind] at h
    split at h
    · cases hd : PP.tokenize_directive sel with
      | error e => rw [hd] at h; cases h
      | ok td =>
        rw [hd] at h
        simp only at h
        cases h
        obtain ⟨h1, h1b, h2, h3⟩ := tokenize_directive_chars sel tok hascii hd
        exact ⟨h1, h1b, h2, fun _ => h3⟩
    · split at h
      · rename_i hcq
        cases hs : PP.tokenize_string_literal sel with
        | error e => rw [hs] at h; cases h
        | ok ts2 =>
          rw [hs] at h
          simp only at h
          cases h
          exact tokenize_string_literal_chars sel tok hascii (by rw [hh, hcq]) hs
      · split at h
        · cases hn : PP.tokenize_number sel with
          | error e => rw [hn] at h; cases h
          | ok tn =>
            rw [hn] at h
            simp only at h
            cases h
            obtain ⟨h1, h1b, h2, h3⟩ := pp_tokenize_number_chars sel tok hascii hn
            exact ⟨h1, h1b, h2, fun _ => h3⟩
        · cases hsc : PP.skip_code sel with
          | error e => rw [hsc] at h; cases h
          | ok k =>
            rw [hsc] at h
            simp only at h
            cases htb : takeBytes sel k with
            | none => rw [htb] at h; cases h
            | some code =>
              rw [htb] at h
              simp only at h
              cases h
              have hk : k = byteLen (sel.takeWhile (fun x => x ≠ '\n' && x ≠ ';')) := by
                unfold PP.skip_code at hsc
                cases htw2 : takeWhileRes (fun x => x ≠ '\n' && x ≠ ';') sel with
                | error e2 => rw [htw2] at hsc; cases hsc
                | ok p2 =>
                  obtain ⟨tw2, b2⟩ := p2
                  rw [htw2] at hsc
                  simp only at hsc
                  cases hsc
                  exact (takeWhileRes_ok _ sel tw2 k htw2).2
              have hkl : k ≤ sel.length := by
                rw [hk, byteLen_ascii (asciiOnly_sublist hascii
                  (subset_of_takeWhile _ sel))]
                exact List.Sublist.length_le (List.takeWhile_sublist _)
              have hcode : code = sel.take k := by
                have hx := takeBytes_ascii sel hascii k hkl
                rw [htb] at hx
                exact Option.some.inj hx
              refine ⟨by simp, by simp, ?_, ?_⟩
              · show PP.cleanCode ⟨PP.TokenKind.Code (String.mk code), k⟩
                unfold PP.cleanCode
                simp only
                intro hmem
                rw [hcode, hk, byteLen_ascii (asciiOnly_sublist hascii
                  (subset_of_takeWhile _ sel)), take_of_takeWhile] at hmem
                have hxx := forall_of_takeWhile _ sel _ hmem
                simp at hxx
              · intro _
                show countNl (sel.take k) = 0
                rw [hk]
                exact countNl_take_span_of_takeWhile sel _ hascii (by decide)

theorem get_lt_of_get?_some {l : List Char} {n : Nat} {c : Char}
    (h : l.get? n = some c) : n < l.length := by
  by_contra hge
  rw [List.get?_eq_none.2 (le_of_not_lt hge)] at h
  cases h

theorem drop_cons_of_get (l : List Char) (n : Nat) (c : Char)
    (h : l.get? n = some c) : l.drop n = c :: l.drop (n + 1) := by
  have hlt : n < l.length := get_lt_of_get?_some h
  rw [List.drop_eq_getElem_cons hlt]
  rw [List.get?_eq_getElem?, List.getElem?_eq_getElem hlt] at h
  rw [Option.some.inj h]

/-- `lexStep` on ASCII data: the data is unchanged, tokens are only
appended, appended tokens have newline-free `Code` content, and — as long
as the appended `Str` tokens are newline-free — the number of `Newline`
tokens grows exactly with the number of newline characters consumed. -/
theorem ppLexStep_facts (st st2 : PP.LexState)
    (hascii : asciiOnly st.data)
    (h : PP.lexStep st = .ok st2) :
    st2.data = st.data ∧
    ∃ new, st2.tokens = st.tokens ++ new ∧
      (∀ t ∈ new, PP.cleanCode t) ∧
      ((∀ t ∈ new, PP.cleanStr t) →
        PP.nlToks st2.tokens + countNl (st.data.take st.pos)
          = PP.nlToks st.tokens + countNl (st.data.take st2.pos)) := by
  unfold PP.lexStep at h
  cases hg : st.data.get? st.pos with
  | none => rw [hg] at h; cases h
  | some c =>
    rw [hg] at h
    have hlt : st.pos < st.data.length := get_lt_of_get?_some hg
    have hdb : dropBytes st.data st.pos = some (st.data.drop st.pos) :=
      dropBytes_ascii st.data hascii st.pos (le_of_lt hlt)
    rw [hdb] at h
    simp only [bind, Except.bind, pure, Except.pure] at h
    have hdc : st.data.drop st.pos = c :: st.data.drop (st.pos + 1) :=
      drop_cons_of_get st.data st.pos c hg
    by_cases hws : rustIsWhitespace c ∧ c ≠ '\n'
    · rw [if_pos hws] at h
      have hcount : countNl (st.data.take (st.pos + PP.skip_white_space (st.data.drop st.pos)))
          = countNl (st.data.take st.pos) := by
        refine countNl_take_skip st.data st.pos _ _ hascii ?_ (skip_white_space_eq _)
        intro x hx
        simp only [Bool.and_eq_true, decide_eq_true_eq] at hx
        exact hx.2
      by_cases hrp : st.readParams
      · rw [if_pos hrp] at h
        cases h
        refine ⟨rfl, [], by simp, by simp, fun _ => ?_⟩
        simp only [hcount]
      · rw [if_neg hrp] at h
        cases h
        refine ⟨rfl, [⟨.Whitespace, PP.skip_white_space (st.data.drop st.pos)⟩],
          rfl, ?_, fun _ => ?_⟩
        · intro t ht
          simp at ht
          subst ht
          trivial
        · simp only [hcount, nlToks_append_one]
          simp [PP.isNewlineTok]
    · rw [if_neg hws] at h
      by_cases hnl : c = '\n'
      · rw [if_pos hnl] at h
        cases h
        have hcount : countNl (st.data.take (st.pos + 1))
            = countNl (st.data.take st.pos) + 1 := by
          rw [countNl_take_add, hdc]
          simp [countNl, hnl]
        refine ⟨rfl, [⟨.Newline, 1⟩], rfl, ?_, fun _ => ?_⟩
        · intro t ht
          simp at ht
          subst ht
          trivial
        · simp only [hcount, nlToks_append_one]
          simp [PP.isNewlineTok]
          omega
      · rw [if_neg hnl] at h
        by_cases hsemi : c = ';'
        · rw [if_pos hsemi] at h
          have hne0 : ¬ byteLen ((st.data.drop st.pos).takeWhile
              (fun x => decide (x ≠ '\n'))) = 0 := by
            rw [hdc, List.takeWhile_cons, if_pos (by simp [hsemi])]
            simp only [byteLen, List.map_cons, List.sum_cons]
            have hc1 : c.utf8Size = 1 := utf8Size_one (hascii c (List.get?_mem hg))
            omega
          have hhd : (st.data.drop st.pos).head? = some (';') := by
            rw [hdc, List.head?_cons, hsemi]
          have hsc : PP.skip_comment (st.data.drop st.pos)
              = .ok (byteLen ((st.data.drop st.pos).takeWhile (fun x => x ≠ '\n'))) := by
            unfold PP.skip_comment
            rw [if_pos hhd, takeWhileRes_eq, if_neg hne0]
          rw [hsc] at h
          simp only at h
          cases h
          refine ⟨rfl, [], by simp, by simp, fun _ => ?_⟩
          have hcount : countNl (st.data.take (st.pos +
              byteLen ((st.data.drop st.pos).takeWhile (fun x => x ≠ '\n'))))
              = countNl (st.data.take st.pos) := by
            refine countNl_take_skip st.data st.pos _ _ hascii ?_ rfl
            intro x hx
            simpa using hx
          simp only [hcount]
        · rw [if_neg hsemi] at h
          cases ht : PP.tokenize_one_token (st.data.drop st.pos) st.readParams with
          | error e =>
            rw [ht] at h
            cases e <;> simp [Except.mapError] at h
          | ok p =>
            obtain ⟨tok, rp⟩ := p
            rw [ht] at h
            simp only [Except.mapError] at h
            obtain ⟨h1, h1b, h2, h3⟩ :=
              tokenize_one_token_chars (st.data.drop st.pos) st.readParams rp tok
                (asciiOnly_drop hascii st.pos) ht
            split at h
            · rename_i heqk
              exact absurd heqk h1b
            · cases h
              refine ⟨rfl, [⟨tok.kind, tok.span⟩], rfl, ?_, ?_⟩
              · intro t htm
                simp at htm
                subst htm
                show PP.cleanCode ⟨tok.kind, tok.span⟩
                exact h2
              · intro hclean
                have hcs : PP.cleanStr tok := hclean ⟨tok.kind, tok.span⟩ (by simp)
                have hz := h3 hcs
                rw [countNl_take_add]
                rw [nlToks_append_one]
                have : ¬ PP.isNewlineTok (⟨tok.kind, tok.span⟩ : PP.Token) := by
                  simp [PP.isNewlineTok, h1]
                rw [if_neg this, hz]
                omega

/-- The lexer loop on ASCII data: tokens are only appended, appended
tokens have newline-free `Code` content, the loop exits past the end of
the data, and — given newline-free `Str` tokens — `Newline` tokens count
the newline characters consumed. -/
theorem ppLexLoop_facts : ∀ (fuel : Nat) (st st2 : PP.LexState),
    asciiOnly st.data →
    PP.lexLoop fuel st = .ok st2 →
    st2.data = st.data ∧ ¬ st2.pos < byteLen st2.data ∧
    ∃ new, st2.tokens = st.tokens ++ new ∧
      (∀ t ∈ new, PP.cleanCode t) ∧
      ((∀ t ∈ new, PP.cleanStr t) →
        PP.nlToks st2.tokens + countNl (st.data.take st.pos)
          = PP.nlToks st.tokens + countNl (st.data.take st2.pos)) := by
  intro fuel
  induction fuel with
  | zero => intro st st2 _ h; cases h
  | succ fuel ih =>
    intro st st2 hascii h
    unfold PP.lexLoop at h
    split at h
    · rename_i hlt
      simp only [bind, Except.bind] at h
      cases hs : PP.lexStep st with
      | error e => rw [hs] at h; cases h
      | ok mid =>
        rw [hs] at h
        obtain ⟨hd1, new1, ht1, hc1, hn1⟩ := ppLexStep_facts st mid hascii hs
        have hascii2 : asciiOnly mid.data := by rw [hd1]; exact hascii
        obtain ⟨hd2, hexit, new2, ht2, hc2, hn2⟩ := ih mid st2 hascii2 h
        refine ⟨hd2.trans hd1, hexit, new1 ++ new2, ?_, ?_, ?_⟩
        · rw [ht2, ht1, List.append_assoc]
        · intro t htm
          rcases List.mem_append.1 htm with hm | hm
          · exact hc1 t hm
          · exact hc2 t hm
        · intro hclean
          have hcs1 : ∀ t ∈ new1, PP.cleanStr t :=
            fun t hm => hclean t (List.mem_append_left _ hm)
          have hcs2 : ∀ t ∈ new2, PP.cleanStr t :=
            fun t hm => hclean t (List.mem_append_right _ hm)
          have e1 := hn1 hcs1
          have e2 := hn2 hcs2
          rw [hd1] at e2
          omega
    · rename_i hge
      cases h
      exact ⟨rfl, hge, [], by simp, by simp, fun _ => rfl⟩

/-- `Lexer::tokenize` on ASCII data: every produced `Code` token is
newline-free, and — when the `Str` tokens are newline-free too — the
`Newline` tokens count exactly the newline characters of the input. -/
theorem ppTokenize_facts (fuel : Nat) (data : List Char) (final : PP.LexState)
    (hascii : asciiOnly data)
    (h : PP.tokenize fuel data = .ok final) :
    final.data = data ∧
    (∀ t ∈ final.tokens, PP.cleanCode t) ∧
    ((∀ t ∈ final.tokens, PP.cleanStr t) →
      PP.nlToks final.tokens = countNl data) := by
  unfold PP.tokenize at h
  obtain ⟨hd, hexit, new, ht, hc, hn⟩ :=
    ppLexLoop_facts fuel (PP.LexState.new data) final hascii h
  simp only [PP.LexState.new] at hd hexit ht hn
  refine ⟨hd, ?_, ?_⟩
  · intro t htm
    rw [ht] at htm
    exact hc t (by simpa using htm)
  · intro hclean
    have := hn (fun t hm => hclean t (by rw [ht]; simpa using hm))
    simp only [List.take_zero] at this
    have htake : data.take final.pos = data := by
      refine List.take_of_length_le ?_
      rw [hd] at hexit
      rw [← byteLen_ascii hascii]
      omega
    rw [htake] at this
    simpa [PP.nlToks, countNl] using this

theorem cleanText_of_code_str (t : PP.Token)
    (hc : PP.cleanCode t) (hs : PP.cleanStr t) : PP.cleanText t := by
  obtain ⟨k, sp⟩ := t
  cases k <;> first | exact hc | exact hs

/-- **C9** (amended): ASCII inputs with no `#include` token and no
newline inside a string-literal token's content.  After a successful lex
and parse, the map has `countNl data + 1` entries, exactly the one
filename, and every entry references it. -/
theorem C9_sourcemap_entries_amended (lf : Nat) (data : List Char)
    (lex : PP.LexState) (fs : PP.Fs) (pf : Nat) (name : String)
    (st2 : PP.ParseState)
    (hascii : asciiOnly data)
    (htk : PP.tokenize lf data = .ok lex)
    (hinc : ∀ t ∈ lex.tokens, t.kind ≠ PP.TokenKind.Include)
    (hstr : ∀ t ∈ lex.tokens, PP.cleanStr t)
    (hp : PP.parse fs pf name lex.tokens = .ok st2) :
    st2.map.line_entries.length = countNl data + 1 ∧
    st2.map.filenames = [name] ∧
    ∀ e ∈ st2.map.line_entries, e.filename_index = 0 := by
  obtain ⟨hd, hcode, hnl⟩ := ppTokenize_facts lf data lex hascii htk
  have hnltoks : PP.nlToks lex.tokens = countNl data := hnl hstr
  have hclean : ∀ t ∈ lex.tokens, PP.cleanText t :=
    fun t hm => cleanText_of_code_str t (hcode t hm) (hstr t hm)
  cases pf with
  | zero => cases hp
  | succ n =>
    obtain ⟨hf, hpk⟩ := parse_succ_facts fs n name lex.tokens st2 hinc hclean hp
    obtain ⟨htok, hfn, hfns, hentries, hlen, hcnt⟩ := hf
    have hidx : st2.tokens.length ≤ st2.index := by
      unfold PP.ParseState.peek at hpk
      by_contra hlt
      rw [List.get?_eq_getElem?, List.getElem?_eq_getElem (lt_of_not_le hlt)] at hpk
      cases hpk
    have htake : st2.tokens.take st2.index = st2.tokens :=
      List.take_of_length_le hidx
    have htk2 : PP.nlToks st2.tokens = PP.nlToks lex.tokens := by rw [htok]
    have hcnt2 : strCountNl st2.output + PP.nlToks (List.take 0 lex.tokens)
        = strCountNl "" + PP.nlToks (List.take st2.index st2.tokens) := hcnt
    rw [htake, htk2] at hcnt2
    have hlen2 : st2.map.line_entries.length + strCountNl ""
        = 1 + strCountNl st2.output := hlen
    have hout : strCountNl st2.output = countNl data := by
      have h0 : strCountNl "" = 0 := rfl
      have hz : PP.nlToks (List.take 0 lex.tokens) = 0 := rfl
      rw [h0, hz] at hcnt2
      omega
    refine ⟨?_, ?_, ?_⟩
    · have h0 : strCountNl "" = 0 := rfl
      rw [h0, hout] at hlen2
      omega
    · rw [hfns]
    · intro e he
      rcases hentries e he with hm | hz
      · simp only [List.mem_singleton] at hm
        subst hm
        rfl
      · exact hz

/-- Counterexample to **C9** as stated: the input `"a<newline>b"` (a
string literal with a raw newline inside) has one newline character and
no `#include`, lexes and parses successfully, yet the map has 1 entry,
not `1 + 1`: the newline is re-emitted inside the quoted output without
an `add_entry` call. -/
theorem C9_counterexample_newline_in_string_literal :
    PP.tokenize 10 ("\"a\nb\"".data)
      = .ok ⟨"\"a\nb\"".data, 5, 1, false, [⟨.Str "a\nb", 5⟩], [⟨0, 1⟩]⟩ ∧
    (∀ t ∈ [(⟨.Str "a\nb", 5⟩ : PP.Token)], t.kind ≠ PP.TokenKind.Include) ∧
    PP.parse [] 20 "f" [⟨.Str "a\nb", 5⟩]
      = .ok ⟨[⟨.Str "a\nb", 5⟩], "\"a\nb\"", ⟨["f"], [⟨0, 1⟩]⟩, [], 1, 1, "f", []⟩ ∧
    (⟨[⟨.Str "a\nb", 5⟩], "\"a\nb\"", ⟨["f"], [⟨0, 1⟩]⟩, [], 1, 1, "f", []⟩ :
        PP.ParseState).map.line_entries.length
      ≠ countNl ("\"a\nb\"".data) + 1 :=
  ⟨rfl, by decide, rfl, by decide⟩

/-- Witness for the amended C9 on the concrete input `hi<newline>`. -/
theorem C9_sourcemap_entries_amended_witness :
    (asciiOnly ("hi\n".data) ∧
      PP.tokenize 10 ("hi\n".data)
        = .ok ⟨"hi\n".data, 3, 2, false, [⟨.Code "hi", 2⟩, ⟨.Newline, 1⟩],
            [⟨0, 1⟩, ⟨0, 2⟩]⟩ ∧
      (∀ t ∈ [(⟨.Code "hi", 2⟩ : PP.Token), ⟨.Newline, 1⟩],
        t.kind ≠ PP.TokenKind.Include) ∧
      (∀ t ∈ [(⟨.Code "hi", 2⟩ : PP.Token), ⟨.Newline, 1⟩], PP.cleanStr t) ∧
      PP.parse [] 20 "f" [⟨.Code "hi", 2⟩, ⟨.Newline, 1⟩]
        = .ok ⟨[⟨.Code "hi", 2⟩, ⟨.Newline, 1⟩], "hi\n", ⟨["f"], [⟨0, 1⟩, ⟨0, 2⟩]⟩,
            [], 2, 2, "f", []⟩) ∧
    ((⟨[⟨.Code "hi", 2⟩, ⟨.Newline, 1⟩], "hi\n", ⟨["f"], [⟨0, 1⟩, ⟨0, 2⟩]⟩,
        [], 2, 2, "f", []⟩ : PP.ParseState).map.line_entries.length
      = countNl ("hi\n".data) + 1 ∧
    (⟨[⟨.Code "hi", 2⟩, ⟨.Newline, 1⟩], "hi\n", ⟨["f"], [⟨0, 1⟩, ⟨0, 2⟩]⟩,
        [], 2, 2, "f", []⟩ : PP.ParseState).map.filenames = ["f"] ∧
    ∀ e ∈ (⟨[⟨.Code "hi", 2⟩, ⟨.Newline, 1⟩], "hi\n", ⟨["f"], [⟨0, 1⟩, ⟨0, 2⟩]⟩,
        [], 2, 2, "f", []⟩ : PP.ParseState).map.line_entries,
      e.filename_index = 0) :=
  ⟨⟨by unfold asciiOnly; decide, rfl, by decide, by decide, rfl⟩,
    C9_sourcemap_entries_amended 10 ("hi\n".data)
      ⟨"hi\n".data, 3, 2, false, [⟨.Code "hi", 2⟩, ⟨.Newline, 1⟩], [⟨0, 1⟩, ⟨0, 2⟩]⟩
      [] 20 "f" _ (by unfold asciiOnly; decide) rfl (by decide) (by decide) rfl⟩

/-- Witness for the universal part of C7 at the concrete input `0x1F`. -/
theorem C7_tokenize_number_radices_witness :
    Asm.tokenize_number "0x1F".data = .ok ⟨.Integer 31, 4, 0⟩ ∧
    ∃ n, (⟨.Integer 31, 4, 0⟩ : Asm.Token).kind = .Integer n ∧ n < 65536 :=
  ⟨rfl, C7_tokenize_number_radices.2.2.2.2.2.2 ("0x1F".data)
    ⟨.Integer 31, 4, 0⟩ rfl⟩

end W4096
